import Mathlib

/-!
Shallow embedding of the SymptomSync repository's data-access layer:
the PostgreSQL connection pool (`repository/connection_pool.py`), the
`Connection.execute` wrapper (`repository/connection.py`,
`models/query_result.py`), and the Redis client (`src/api/clients/
redis_client.py`): its retry decorator, serialization helpers and the
`set_kv` / `get` operations.  External effects (psycopg2, the redis
driver, `json`, `pickle`, wall-clock time) are modelled as explicit
parameters; Python exceptions are modelled with `Except` / explicit
outcome types.
-/

/-! ## Connection pool (`repository/connection_pool.py`) -/

/-- Connections are identified by their creation index. -/
abbrev ConnId := Nat

/-- State of a `ConnectionPool`.  `max_connections` starts at 3 and is
decremented by `_create_connection` (the field doubles as the remaining
creation budget in the source).  `created` is a ghost counter of how many
`Connection` objects were ever constructed; it also serves as the next
fresh `ConnId`. -/
structure Pool where
  max_connections : Int
  available_connections : List ConnId
  created : Nat
deriving Repr, DecidableEq

/-- `ConnectionPool.__init__`. -/
def Pool.init : Pool :=
  { max_connections := 3, available_connections := [], created := 0 }

/-- `ConnectionPool._add_to_available_connections`: `list.append`. -/
def Pool.add_to_available_connections (p : Pool) (c : ConnId) : Pool :=
  { p with available_connections := p.available_connections ++ [c] }

/-- `ConnectionPool._create_connection`: builds a fresh `Connection`,
appends it to `available_connections`, decrements `max_connections`, and
returns the connection. -/
def Pool.create_connection (p : Pool) : ConnId × Pool :=
  let c := p.created
  let p1 := p.add_to_available_connections c
  (c, { p1 with max_connections := p1.max_connections - 1, created := p1.created + 1 })

/-- `ConnectionPool.release_connection`. -/
def Pool.release_connection (p : Pool) (c : ConnId) : Pool :=
  p.add_to_available_connections c

/-- Number of poll iterations of `wait_and_pop_connection`: a 30 second
window polled every 0.1 seconds. -/
def pollCount : Nat := 300

/-- Outcome of `wait_and_pop_connection`. -/
inductive WaitResult
  | popped (c : ConnId) (remaining : List ConnId)
  | timeout
deriving Repr, DecidableEq

/-- One polling pass of `wait_and_pop_connection`.  `schedule tick` is the
content of `self.available_connections` observed at poll `tick` (other
actors may release connections concurrently); `list.pop()` takes the last
element. -/
def waitGo (schedule : Nat → List ConnId) : Nat → Nat → WaitResult
  | _, 0 => .timeout
  | tick, fuel + 1 =>
    match (schedule tick).getLast? with
    | some c => .popped c (schedule tick).dropLast
    | none => waitGo schedule (tick + 1) fuel

/-- `ConnectionPool.wait_and_pop_connection`. -/
def wait_and_pop_connection (schedule : Nat → List ConnId) : WaitResult :=
  waitGo schedule 0 pollCount

/-- Result of a `get_connection` call: a normal return (of a connection,
or of `None` — the waiting branch of the source stores the popped
connection in a local and falls off the end of the function) or a raised
`TimeoutError`. -/
inductive GetOutcome
  | ret (c : Option ConnId) (p : Pool)
  | timeoutErr (p : Pool)
deriving Repr, DecidableEq

/-- `ConnectionPool.get_connection`.  `schedule` feeds the waiting branch
with the externally observed pool contents at each poll tick. -/
def Pool.get_connection (p : Pool) (schedule : Nat → List ConnId) : GetOutcome :=
  match p.available_connections.getLast? with
  | some c => .ret (some c) { p with available_connections := p.available_connections.dropLast }
  | none =>
    if 0 < p.max_connections then
      let cp := p.create_connection
      .ret (some cp.1) cp.2
    else
      match wait_and_pop_connection schedule with
      | .popped _ remaining => .ret none { p with available_connections := remaining }
      | .timeout => .timeoutErr p

/-- One client-visible pool operation. -/
inductive PoolOp
  | get (schedule : Nat → List ConnId)
  | release (c : ConnId)

/-- Pool state after one operation (the state reached whether or not the
call raised). -/
def Pool.applyOp (p : Pool) (op : PoolOp) : Pool :=
  match op with
  | .get schedule =>
    match p.get_connection schedule with
    | .ret _ p1 => p1
    | .timeoutErr p1 => p1
  | .release c => p.release_connection c

/-- Pool state after a sequence of operations. -/
def Pool.runOps (p : Pool) (ops : List PoolOp) : Pool :=
  ops.foldl Pool.applyOp p

/-! ## `Connection.execute` (`repository/connection.py`) -/

/-- A fetched row, modelled as a tuple of column strings. -/
abbrev Row := List String

/-- Behaviour of the psycopg2 driver during one `execute` call:
whether `conn.cursor()`, `cursor.execute(...)` and `cursor.fetchall()`
succeed, and the row set `fetchall` would return. -/
structure Driver where
  cursorOk : Bool
  execOk : Bool
  fetchOk : Bool
  rows : List Row
deriving Repr, DecidableEq

/-- `QueryResult` (`models/query_result.py`).  The `rows` field is
`Option`-valued: `none` means the attribute was never assigned. -/
structure QueryResult where
  rows : Option (List Row)
  success : Bool
  error_message : String
deriving Repr, DecidableEq

/-- `QueryResult.__init__`: the source only annotates `self.rows:
list[dict]` and never assigns it, so the constructed object carries no
`rows` attribute; `success` and `error_message` are stored. -/
def QueryResult.make (rows : List Row) (success : Bool) (error_message : String) : QueryResult :=
  { rows := none, success := success, error_message := error_message }

/-- A Python exception escaping `Connection.execute`. -/
inductive PyErr
  | driver (msg : String)
  | unboundLocal
  | attributeError
deriving Repr, DecidableEq

/-- Result of `Connection.execute`: a normal return (`none` when the
function falls off the end and returns Python `None`) or an uncaught
exception. -/
inductive ExecResult
  | ret (r : Option QueryResult)
  | raised (e : PyErr)
deriving Repr, DecidableEq

/-- Python whitespace, as stripped by `str.strip()`. -/
def isPySpace (c : Char) : Bool :=
  c = ' ' || c = '\t' || c = '\n' || c = '\r' || c = Char.ofNat 11 || c = Char.ofNat 12

/-- `str.strip()`: drop leading and trailing whitespace. -/
def pyStrip (s : List Char) : List Char :=
  ((s.dropWhile isPySpace).reverse.dropWhile isPySpace).reverse

/-- `str.lower()` on one character (ASCII range; `"select"` is ASCII). -/
def pyLowerChar (c : Char) : Char :=
  if 65 ≤ c.toNat ∧ c.toNat ≤ 90 then Char.ofNat (c.toNat + 32) else c

/-- The `query.strip().lower().startswith("select")` test. -/
def isSelectQuery (query : String) : Bool :=
  List.isPrefixOf (("select").data) ((pyStrip query.data).map pyLowerChar)

/-- `Connection.execute`, traced faithfully.  `hasCursor` records whether
`self.cursor` was assigned by an earlier call.

* `conn.cursor()` raises: the `except` block evaluates the unbound local
  `rows`, raising `UnboundLocalError`; the `finally` block then evaluates
  `self.cursor.close()`, which raises `AttributeError` when `self.cursor`
  was never assigned (that exception replaces the pending one).
* `cursor.execute(...)` raises: same unbound `rows` in the handler, but
  `self.cursor` now exists, so `UnboundLocalError` propagates.
* select query, `fetchall` succeeds: the `try` block has no `return` on
  this path (the only `return` sits inside the `else` branch), so the
  function returns `None`.
* select query, `fetchall` raises: `rows` is again unbound in the handler.
* non-select query: returns `QueryResult(rows=[], success=True,
  error_message="")`. -/
def Connection.execute (d : Driver) (hasCursor : Bool) (query : String) : ExecResult :=
  if !d.cursorOk then
    if hasCursor then .raised .unboundLocal else .raised .attributeError
  else if !d.execOk then
    .raised .unboundLocal
  else if isSelectQuery query then
    if d.fetchOk then .ret none
    else .raised .unboundLocal
  else
    .ret (some (QueryResult.make [] true ""))

/-! ## Python values stored through the Redis client -/

/-- A Python value handled by the Redis client's serialization helpers.
Strings are lists of unicode characters, `bytes` are lists of byte
values.  Dictionaries are association lists in insertion order. -/
inductive PyValue
  | pynone
  | bool (b : Bool)
  | int (n : Int)
  | str (s : List Char)
  | bytes (bs : List Nat)
  | list (xs : List PyValue)
  | dict (kvs : List (List Char × PyValue))

/-! ## UTF-8 encoding and decoding

`str.encode("utf-8")` / `bytes.decode("utf-8")`, as used implicitly by
the redis driver when storing strings and explicitly by
`_deserialize_value`.  The decoder is strict: continuation bytes must be
in `0x80..0xBF`, overlong forms, surrogates and values above `0x10FFFF`
are rejected. -/

/-- UTF-8 encoding of one character. -/
def utf8Char (c : Char) : List Nat :=
  let n := c.toNat
  if n < 0x80 then [n]
  else if n < 0x800 then [0xC0 + n / 0x40, 0x80 + n % 0x40]
  else if n < 0x10000 then [0xE0 + n / 0x1000, 0x80 + n / 0x40 % 0x40, 0x80 + n % 0x40]
  else [0xF0 + n / 0x40000, 0x80 + n / 0x1000 % 0x40, 0x80 + n / 0x40 % 0x40, 0x80 + n % 0x40]

/-- UTF-8 encoding of a string. -/
def utf8Encode : List Char → List Nat
  | [] => []
  | c :: cs => utf8Char c ++ utf8Encode cs

/-- Is `b` a UTF-8 continuation byte? -/
def isCont (b : Nat) : Bool := 0x80 ≤ b && b < 0xC0

/-- Decode one UTF-8 scalar from the head of the byte sequence, returning
the character and the remaining bytes. -/
def utf8DecodeChar : List Nat → Option (Char × List Nat)
  | [] => none
  | b :: rest =>
    if b < 0x80 then some (Char.ofNat b, rest)
    else if b < 0xC2 then none
    else if b < 0xE0 then
      match rest with
      | b2 :: r =>
        if isCont b2 then some (Char.ofNat ((b - 0xC0) * 0x40 + (b2 - 0x80)), r) else none
      | [] => none
    else if b < 0xF0 then
      match rest with
      | b2 :: b3 :: r =>
        let n := (b - 0xE0) * 0x1000 + (b2 - 0x80) * 0x40 + (b3 - 0x80)
        if isCont b2 && isCont b3 && decide (0x800 ≤ n) && decide (n < 0xD800 ∨ 0xE000 ≤ n) then
          some (Char.ofNat n, r)
        else none
      | _ => none
    else if b < 0xF5 then
      match rest with
      | b2 :: b3 :: b4 :: r =>
        let n := (b - 0xF0) * 0x40000 + (b2 - 0x80) * 0x1000 + (b3 - 0x80) * 0x40 + (b4 - 0x80)
        if isCont b2 && isCont b3 && isCont b4 && decide (0x10000 ≤ n) && decide (n < 0x110000) then
          some (Char.ofNat n, r)
        else none
      | _ => none
    else none

/-- Decode a whole byte sequence; `fuel` bounds the number of decoded
characters (each character consumes at least one byte, so any bound of at
least the byte count gives the same result). -/
def utf8DecodeGo (fuel : Nat) (l : List Nat) : Option (List Char) :=
  match l with
  | [] => some []
  | b :: rest =>
    match fuel with
    | 0 => none
    | fuel + 1 =>
      match utf8DecodeChar (b :: rest) with
      | some (c, r) => (utf8DecodeGo fuel r).map (fun cs => c :: cs)
      | none => none

/-- Strict UTF-8 decoding of a byte sequence; `none` models a raised
`UnicodeDecodeError`. -/
def utf8Decode (bs : List Nat) : Option (List Char) :=
  utf8DecodeGo bs.length bs

/-! ## JSON printing (`json.dumps` with default arguments)

Default separators are `", "` and `": "`; `ensure_ascii=True` escapes
control characters and all characters above `0x7F` (`\uXXXX`, surrogate
pairs above `0xFFFF`); `"` `\` and the short escapes `\b \f \n \r \t`
are produced as in CPython.  `bytes` values are not JSON serializable:
printing returns `none`, modelling the raised `TypeError`.  Numbers in
this embedding are integers (the repository stores no floats through
this path). -/

/-- Decimal digits of a natural number, most significant first; `fuel`
bounds the recursion depth (any bound of at least the digit count gives
the same result). -/
def natDigitsGo : Nat → Nat → List Char
  | 0, _ => []
  | fuel + 1, n =>
    if n < 10 then [Char.ofNat (48 + n)]
    else natDigitsGo fuel (n / 10) ++ [Char.ofNat (48 + n % 10)]

/-- Decimal digits of a natural number, most significant first. -/
def natDigits (n : Nat) : List Char :=
  natDigitsGo (n + 1) n

/-- Decimal representation of a Python int. -/
def intChars (n : Int) : List Char :=
  if n < 0 then '-' :: natDigits n.natAbs else natDigits n.natAbs

/-- Lowercase hexadecimal digit. -/
def hexDigitChar (n : Nat) : Char :=
  if n < 10 then Char.ofNat (48 + n) else Char.ofNat (87 + n)

/-- Four-digit lowercase hexadecimal rendering of `n < 0x10000`. -/
def hex4 (n : Nat) : List Char :=
  [hexDigitChar (n / 4096 % 16), hexDigitChar (n / 256 % 16),
   hexDigitChar (n / 16 % 16), hexDigitChar (n % 16)]

/-- JSON escape of a single character, as produced by `json.dumps` with
`ensure_ascii=True`. -/
def escapeChar (c : Char) : List Char :=
  if c = '"' then ['\\', '"']
  else if c = '\\' then ['\\', '\\']
  else if c = Char.ofNat 8 then ['\\', 'b']
  else if c = Char.ofNat 12 then ['\\', 'f']
  else if c = Char.ofNat 10 then ['\\', 'n']
  else if c = Char.ofNat 13 then ['\\', 'r']
  else if c = Char.ofNat 9 then ['\\', 't']
  else if 0x20 ≤ c.toNat ∧ c.toNat ≤ 0x7F then [c]
  else if c.toNat < 0x10000 then '\\' :: 'u' :: hex4 c.toNat
  else
    let u := c.toNat - 0x10000
    ('\\' :: 'u' :: hex4 (0xD800 + u / 0x400)) ++ ('\\' :: 'u' :: hex4 (0xDC00 + u % 0x400))

/-- Escaped body of a JSON string literal. -/
def escapeList : List Char → List Char
  | [] => []
  | c :: cs => escapeChar c ++ escapeList cs

/-- A JSON string literal. -/
def quoteString (s : List Char) : List Char :=
  '"' :: escapeList s ++ ['"']

mutual

/-- `json.dumps` of a value; `none` models the `TypeError` raised on a
non-serializable value (`bytes`). -/
def jsonDumps : PyValue → Option (List Char)
  | .pynone => some ['n', 'u', 'l', 'l']
  | .bool true => some ['t', 'r', 'u', 'e']
  | .bool false => some ['f', 'a', 'l', 's', 'e']
  | .int n => some (intChars n)
  | .str s => some (quoteString s)
  | .bytes _ => none
  | .list xs => (jsonDumpsElems xs).map (fun body => '[' :: body ++ [']'])
  | .dict kvs => (jsonDumpsMembers kvs).map (fun body => '{' :: body ++ ['}'])

/-- Comma-separated rendering of array elements (separator `", "`). -/
def jsonDumpsElems : List PyValue → Option (List Char)
  | [] => some []
  | [x] => jsonDumps x
  | x :: y :: xs =>
    match jsonDumps x, jsonDumpsElems (y :: xs) with
    | some cx, some rest => some (cx ++ ',' :: ' ' :: rest)
    | _, _ => none

/-- Comma-separated rendering of object members (separators `", "` and
`": "`). -/
def jsonDumpsMembers : List (List Char × PyValue) → Option (List Char)
  | [] => some []
  | [kv] => (jsonDumps kv.2).map (fun cv => quoteString kv.1 ++ ':' :: ' ' :: cv)
  | kv :: kv2 :: kvs =>
    match jsonDumps kv.2, jsonDumpsMembers (kv2 :: kvs) with
    | some cv, some rest => some (quoteString kv.1 ++ ':' :: ' ' :: cv ++ ',' :: ' ' :: rest)
    | _, _ => none

end

/-! ## JSON parsing (`json.loads`)

A recursive-descent parser over `List Char`, strict like CPython's: JSON
whitespace is skipped, string literals accept the standard escapes with
surrogate-pair recombination and reject raw control characters, and the
whole document must be consumed.  Numbers are integers in this embedding.
Nested values are parsed under a fuel bound; `jsonLoads` supplies fuel
larger than any nesting depth the input can encode. -/

/-- Skip JSON whitespace. -/
def skipWs : List Char → List Char
  | [] => []
  | c :: cs => if c = ' ' || c = '\t' || c = '\n' || c = '\r' then skipWs cs else c :: cs

/-- Numeric value of a hexadecimal digit. -/
def parseHexDigit (c : Char) : Option Nat :=
  if 48 ≤ c.toNat ∧ c.toNat ≤ 57 then some (c.toNat - 48)
  else if 97 ≤ c.toNat ∧ c.toNat ≤ 102 then some (c.toNat - 87)
  else if 65 ≤ c.toNat ∧ c.toNat ≤ 70 then some (c.toNat - 55)
  else none

/-- Numeric value of four hexadecimal digits. -/
def hexVal4 (a b c d : Char) : Option Nat :=
  match parseHexDigit a, parseHexDigit b, parseHexDigit c, parseHexDigit d with
  | some d3, some d2, some d1, some d0 => some (4096 * d3 + 256 * d2 + 16 * d1 + d0)
  | _, _, _, _ => none

/-- A `\uXXXX` escape with a low surrogate expected: the continuation
after a high surrogate `hi`. -/
def parseLowSurrogate (hi : Nat) : List Char → Option (Char × List Char)
  | c1 :: c2 :: a :: b :: c :: d :: r =>
    if c1 = '\\' ∧ c2 = 'u' then
      match hexVal4 a b c d with
      | some m =>
        if 0xDC00 ≤ m ∧ m < 0xE000 then
          some (Char.ofNat (0x10000 + (hi - 0xD800) * 0x400 + (m - 0xDC00)), r)
        else none
      | none => none
    else none
  | _ => none

/-- A `\uXXXX` escape (after the `u`), with surrogate-pair
recombination. -/
def parseU : List Char → Option (Char × List Char)
  | a :: b :: c :: d :: r =>
    match hexVal4 a b c d with
    | none => none
    | some n =>
      if 0xD800 ≤ n ∧ n < 0xDC00 then parseLowSurrogate n r
      else if 0xDC00 ≤ n ∧ n < 0xE000 then none
      else some (Char.ofNat n, r)
  | _ => none

/-- One string-literal escape (the part after the backslash). -/
def parseEscapeTok : List Char → Option (Char × List Char)
  | [] => none
  | c :: r =>
    if c = '"' then some ('"', r)
    else if c = '\\' then some ('\\', r)
    else if c = '/' then some ('/', r)
    else if c = 'b' then some (Char.ofNat 8, r)
    else if c = 'f' then some (Char.ofNat 12, r)
    else if c = 'n' then some (Char.ofNat 10, r)
    else if c = 'r' then some (Char.ofNat 13, r)
    else if c = 't' then some (Char.ofNat 9, r)
    else if c = 'u' then parseU r
    else none

/-- Body of a string literal after the opening quote, up to and including
the closing quote; `fuel` bounds the number of produced characters (each
consumes at least one input character). -/
def parseSB : Nat → List Char → Option (List Char × List Char)
  | 0, _ => none
  | fuel + 1, s =>
    match s with
    | [] => none
    | ch :: rest =>
      if ch = '"' then some ([], rest)
      else if ch = '\\' then
        match parseEscapeTok rest with
        | some (e, r) => (parseSB fuel r).map (fun sr => (e :: sr.1, sr.2))
        | none => none
      else if ch.toNat < 0x20 then none
      else (parseSB fuel rest).map (fun sr => (ch :: sr.1, sr.2))

/-- Body of a string literal after the opening quote, up to and including
the closing quote: the standard escapes, `\uXXXX` with surrogate-pair
recombination, raw control characters rejected. -/
def parseStringBody (s : List Char) : Option (List Char × List Char) :=
  parseSB (s.length + 1) s

/-- Is `c` a decimal digit? -/
def isDigitChar (c : Char) : Bool := 48 ≤ c.toNat && c.toNat ≤ 57

/-- Consume a maximal run of decimal digits, extending `acc`. -/
def parseDigits (acc : Nat) : List Char → Nat × List Char
  | [] => (acc, [])
  | c :: rest =>
    if isDigitChar c then parseDigits (acc * 10 + (c.toNat - 48)) rest
    else (acc, c :: rest)

/-- A run of at least one digit. -/
def parseNat : List Char → Option (Nat × List Char)
  | [] => none
  | c :: rest =>
    if isDigitChar c then some (parseDigits 0 (c :: rest)) else none

/-- An integer literal: optional minus sign, at least one digit. -/
def parseInt : List Char → Option (Int × List Char)
  | [] => none
  | c :: rest =>
    if c = '-' then (parseNat rest).map (fun p => (-(p.1 : Int), p.2))
    else (parseNat (c :: rest)).map (fun p => ((p.1 : Int), p.2))

/-- The keyword tail `ull` of `null`. -/
def parseNullTok : List Char → Option (PyValue × List Char)
  | 'u' :: 'l' :: 'l' :: r => some (.pynone, r)
  | _ => none

/-- The keyword tail `rue` of `true`. -/
def parseTrueTok : List Char → Option (PyValue × List Char)
  | 'r' :: 'u' :: 'e' :: r => some (.bool true, r)
  | _ => none

/-- The keyword tail `alse` of `false`. -/
def parseFalseTok : List Char → Option (PyValue × List Char)
  | 'a' :: 'l' :: 's' :: 'e' :: r => some (.bool false, r)
  | _ => none

mutual

/-- Parse one JSON value (leading whitespace allowed).  `fuel` bounds the
combined nesting depth and element count; every recursive call decrements
it. -/
def parseVal : Nat → List Char → Option (PyValue × List Char)
  | 0, _ => none
  | fuel + 1, s =>
    match skipWs s with
    | [] => none
    | c :: r =>
      if c = 'n' then parseNullTok r
      else if c = 't' then parseTrueTok r
      else if c = 'f' then parseFalseTok r
      else if c = '"' then (parseStringBody r).map (fun sr => (.str sr.1, sr.2))
      else if c = '[' then
        match skipWs r with
        | [] => none
        | c2 :: r2 =>
          if c2 = ']' then some (.list [], r2)
          else (parseElems fuel (c2 :: r2)).map (fun er => (.list er.1, er.2))
      else if c = '{' then
        match skipWs r with
        | [] => none
        | c2 :: r2 =>
          if c2 = '}' then some (.dict [], r2)
          else (parseMembers fuel (c2 :: r2)).map (fun mr => (.dict mr.1, mr.2))
      else if c = '-' || isDigitChar c then
        (parseInt (c :: r)).map (fun ir => (.int ir.1, ir.2))
      else none

/-- Parse one or more comma-separated array elements and the closing
bracket. -/
def parseElems : Nat → List Char → Option (List PyValue × List Char)
  | 0, _ => none
  | fuel + 1, s =>
    match parseVal fuel s with
    | none => none
    | some (v, r) =>
      match skipWs r with
      | [] => none
      | c :: r1 =>
        if c = ',' then (parseElems fuel r1).map (fun er => (v :: er.1, er.2))
        else if c = ']' then some ([v], r1)
        else none

/-- Parse one or more comma-separated object members and the closing
brace. -/
def parseMembers : Nat → List Char → Option (List (List Char × PyValue) × List Char)
  | 0, _ => none
  | fuel + 1, s =>
    match skipWs s with
    | [] => none
    | c0 :: r0 =>
      if c0 = '"' then
        match parseStringBody r0 with
        | none => none
        | some (k, r1) =>
          match skipWs r1 with
          | [] => none
          | c1 :: r2 =>
            if c1 = ':' then
              match parseVal fuel r2 with
              | none => none
              | some (v, r3) =>
                match skipWs r3 with
                | [] => none
                | c2 :: r4 =>
                  if c2 = ',' then (parseMembers fuel r4).map (fun mr => ((k, v) :: mr.1, mr.2))
                  else if c2 = '}' then some ([(k, v)], r4)
                  else none
            else none
      else none

end

/-- `json.loads`: parse a complete document; only trailing whitespace may
remain. -/
def jsonLoads (s : List Char) : Option PyValue :=
  match parseVal (s.length + 1) s with
  | some (v, rest) => if skipWs rest = [] then some v else none
  | none => none

/-! ## Serialization helpers (`RedisClient._serialize_value`,
`RedisClient._deserialize_value`) -/

/-- Is the value a `dict` or `list`? -/
def PyValue.isStructured : PyValue → Bool
  | .list _ => true
  | .dict _ => true
  | _ => false

mutual

/-- Does the value lie in the fragment `json.dumps` can serialize here:
scalars `None`/`bool`/`int`/`str` and nested `list`/`dict`?  (`bytes` is
rejected by `json.dumps`.) -/
def jsonOk : PyValue → Bool
  | .pynone => true
  | .bool _ => true
  | .int _ => true
  | .str _ => true
  | .bytes _ => false
  | .list xs => jsonOkList xs
  | .dict kvs => jsonOkDict kvs

/-- All elements serializable. -/
def jsonOkList : List PyValue → Bool
  | [] => true
  | x :: xs => jsonOk x && jsonOkList xs

/-- All member values serializable. -/
def jsonOkDict : List (List Char × PyValue) → Bool
  | [] => true
  | kv :: kvs => jsonOk kv.2 && jsonOkDict kvs

end

/-- `RedisClient._serialize_value`.  `dict`/`list` go through
`json.dumps` (`none` models the `TypeError` raised on non-serializable
content); `str`/`bytes`/`int` — and `bool`, a Python `int` subclass —
pass through; anything else (here: `None`) is pickled.  `pickleDumps`
models the external `pickle.dumps`. -/
def serialize_value (pickleDumps : PyValue → List Nat) : PyValue → Option PyValue
  | .dict kvs => (jsonDumps (.dict kvs)).map .str
  | .list xs => (jsonDumps (.list xs)).map .str
  | .str s => some (.str s)
  | .bytes bs => some (.bytes bs)
  | .int n => some (.int n)
  | .bool b => some (.bool b)
  | .pynone => some (.bytes (pickleDumps .pynone))

/-- The exception `_deserialize_value` can raise. -/
inductive DeserErr
  | unicodeDecodeError
deriving Repr, DecidableEq

/-- `RedisClient._deserialize_value`.  `jsonLoadsFn` and `pickleLoadsFn`
model the external `json.loads` and `pickle.loads` (`none` = the call
raised).  The `value.decode("utf-8")` step sits outside every
`try`, so an undecodable byte sequence raises. -/
def deserialize_value (jsonLoadsFn : List Char → Option PyValue)
    (pickleLoadsFn : List Nat → Option PyValue)
    (value : Option (List Nat)) (deserialize_json : Bool) : Except DeserErr PyValue :=
  match value with
  | none => .ok .pynone
  | some bs =>
    match utf8Decode bs with
    | none => .error .unicodeDecodeError
    | some decoded =>
      if deserialize_json then
        match jsonLoadsFn decoded with
        | some v => .ok v
        | none =>
          match pickleLoadsFn bs with
          | some v => .ok v
          | none => .ok (.str decoded)
      else .ok (.str decoded)

/-! ## Retry decorator (`retry_on_connection_error`) and the typed
operations -/

/-- A custom exception of the Redis client module. -/
inductive RedisExc
  | redisConnectionError (msg : String)
  | redisOperationError (msg : String)
deriving Repr, DecidableEq

/-- Outcome of one invocation of the decorated function's body:
a value, an escaping `redis.ConnectionError`/`redis.TimeoutError`
(the two classes the decorator catches), or any other exception. -/
inductive CallOutcome (α : Type)
  | ok (a : α)
  | transient (msg : String)
  | other (e : RedisExc)
deriving Repr, DecidableEq

/-- What one run of a wrapped operation did: its result (value or
uncaught exception), how many times the body was invoked, and the
sequence of back-off sleeps performed. -/
structure RetryTrace (α : Type) where
  result : Except RedisExc α
  attempts : Nat
  sleeps : List ℚ

/-- The message of the final `RedisConnectionError` raised after the
retry loop is exhausted (`last` is `str(last_exception)`, `None` when no
attempt ran). -/
def retryFailMsg (total : Nat) (last : Option String) : String :=
  "Failed after " ++ toString total ++ " attempts: " ++
    (match last with | some m => m | none => "None")

/-- The `for attempt in range(max_retries + 1)` loop of the `wrapper`
closure in `retry_on_connection_error`: each transient failure before the
last allowed attempt sleeps `delay * backoff ** attempt`; any other
exception propagates; once the loop ends a `RedisConnectionError`
wrapping the last failure is raised. -/
def retryGo (maxRetries : Nat) (delay backoff : ℚ) (body : Nat → CallOutcome α) :
    Nat → Nat → Option String → RetryTrace α
  | _, 0, lastE =>
    { result := .error (.redisConnectionError (retryFailMsg (maxRetries + 1) lastE)),
      attempts := 0, sleeps := [] }
  | attempt, fuel + 1, _ =>
    match body attempt with
    | .ok a => { result := .ok a, attempts := 1, sleeps := [] }
    | .other e => { result := .error e, attempts := 1, sleeps := [] }
    | .transient m =>
      let rest := retryGo maxRetries delay backoff body (attempt + 1) fuel (some m)
      if attempt < maxRetries then
        { result := rest.result, attempts := rest.attempts + 1,
          sleeps := delay * backoff ^ attempt :: rest.sleeps }
      else
        { result := rest.result, attempts := rest.attempts + 1, sleeps := rest.sleeps }

/-- A call of a function wrapped by
`retry_on_connection_error(max_retries, delay, backoff)`: the loop body
runs for attempts `0 .. max_retries` (the `fuel` argument counts the
remaining loop iterations, `max_retries + 1` at entry). -/
def retryRun (maxRetries : Nat) (delay backoff : ℚ) (body : Nat → CallOutcome α) : RetryTrace α :=
  retryGo maxRetries delay backoff body 0 (maxRetries + 1) none

/-- Decorator default `max_retries`. -/
def decoDefaultMaxRetries : Nat := 3

/-- Decorator default `delay` (0.1). -/
def decoDefaultDelay : ℚ := 1 / 10

/-- Decorator default `backoff` (2.0). -/
def decoDefaultBackoff : ℚ := 2

/-- `RedisConfig`: every field of the source dataclass; the floats are
modelled as rationals. -/
structure RedisConfig where
  host : String
  port : Int
  db : Int
  password : Option String := none
  username : Option String := none
  ssl : Bool := false
  ssl_cert_reqs : Option String := none
  ssl_ca_certs : Option String := none
  ssl_certfile : Option String := none
  ssl_keyfile : Option String := none
  max_connections : Int := 10
  retry_on_timeout : Bool := true
  health_check_interval : Int := 30
  max_retries : Nat := 3
  retry_delay : ℚ := 1 / 10
  backoff_factor : ℚ := 2
  socket_timeout : ℚ := 5
  socket_connect_timeout : ℚ := 5
deriving Repr, DecidableEq

/-- A `RedisClient`: its configuration and whether `self._client` is
initialized. -/
structure RedisClient where
  config : RedisConfig
  clientInit : Bool
deriving Repr, DecidableEq

/-- Behaviour of one underlying driver call (`self._client.set`,
`self._client.get`, ...): a value, a `redis.ConnectionError` /
`redis.TimeoutError`, or another exception. -/
inductive DriverOutcome (α : Type)
  | ok (a : α)
  | connError (msg : String)
  | otherError (msg : String)
deriving Repr, DecidableEq

/-- The body of `RedisClient.set_kv` at one attempt.  The bare
`RedisConnectionError` guard is raised outside the `try`; everything the
`try` block raises — including `redis.ConnectionError` and
`redis.TimeoutError`, which are `Exception` subclasses — is caught by
`except Exception` and re-raised as `RedisOperationError`, so the body
never lets a transient error escape to the decorator. -/
def set_kv_body (pickleDumps : PyValue → List Nat) (client : RedisClient) (key : String)
    (value : PyValue) (driver : Nat → DriverOutcome Bool) (attempt : Nat) : CallOutcome Bool :=
  if !client.clientInit then .other (.redisConnectionError ("Redis client not initialized"))
  else
    match serialize_value pickleDumps value with
    | none => .other (.redisOperationError ("Failed to set key " ++ key ++ ": TypeError"))
    | some _ =>
      match driver attempt with
      | .ok b => .ok b
      | .connError m => .other (.redisOperationError ("Failed to set key " ++ key ++ ": " ++ m))
      | .otherError m => .other (.redisOperationError ("Failed to set key " ++ key ++ ": " ++ m))

/-- `RedisClient.set_kv`: the body above wrapped by
`@retry_on_connection_error()` — the decorator's own default parameters,
not the configuration's retry settings. -/
def set_kv (pickleDumps : PyValue → List Nat) (client : RedisClient) (key : String)
    (value : PyValue) (driver : Nat → DriverOutcome Bool) : RetryTrace Bool :=
  retryRun decoDefaultMaxRetries decoDefaultDelay decoDefaultBackoff
    (set_kv_body pickleDumps client key value driver)

/-- The body of `RedisClient.get` at one attempt; `driver attempt` is the
byte string (or `None`) returned by `self._client.get(key)`.  As in
`set_kv`, every exception of the `try` block — transient driver errors
and the `UnicodeDecodeError` of `_deserialize_value` alike — becomes a
`RedisOperationError`. -/
def get_body (jsonLoadsFn : List Char → Option PyValue) (pickleLoadsFn : List Nat → Option PyValue)
    (client : RedisClient) (key : String) (deserialize_json : Bool)
    (driver : Nat → DriverOutcome (Option (List Nat))) (attempt : Nat) : CallOutcome PyValue :=
  if !client.clientInit then .other (.redisConnectionError ("Redis client not initialized"))
  else
    match driver attempt with
    | .ok bs =>
      match deserialize_value jsonLoadsFn pickleLoadsFn bs deserialize_json with
      | .ok v => .ok v
      | .error _ =>
        .other (.redisOperationError ("Failed to get key " ++ key ++ ": UnicodeDecodeError"))
    | .connError m => .other (.redisOperationError ("Failed to get key " ++ key ++ ": " ++ m))
    | .otherError m => .other (.redisOperationError ("Failed to get key " ++ key ++ ": " ++ m))

/-- `RedisClient.get`, wrapped by `@retry_on_connection_error()` with the
decorator defaults. -/
def redis_get (jsonLoadsFn : List Char → Option PyValue)
    (pickleLoadsFn : List Nat → Option PyValue) (client : RedisClient) (key : String)
    (deserialize_json : Bool) (driver : Nat → DriverOutcome (Option (List Nat))) :
    RetryTrace PyValue :=
  retryRun decoDefaultMaxRetries decoDefaultDelay decoDefaultBackoff
    (get_body jsonLoadsFn pickleLoadsFn client key deserialize_json driver)

/-- Agreement of two configurations on every field other than the three
retry settings (`max_retries`, `retry_delay`, `backoff_factor`). -/
def sameExceptRetry (c1 c2 : RedisConfig) : Prop :=
  c1.host = c2.host ∧ c1.port = c2.port ∧ c1.db = c2.db ∧
  c1.password = c2.password ∧ c1.username = c2.username ∧ c1.ssl = c2.ssl ∧
  c1.ssl_cert_reqs = c2.ssl_cert_reqs ∧ c1.ssl_ca_certs = c2.ssl_ca_certs ∧
  c1.ssl_certfile = c2.ssl_certfile ∧ c1.ssl_keyfile = c2.ssl_keyfile ∧
  c1.max_connections = c2.max_connections ∧ c1.retry_on_timeout = c2.retry_on_timeout ∧
  c1.health_check_interval = c2.health_check_interval ∧
  c1.socket_timeout = c2.socket_timeout ∧ c1.socket_connect_timeout = c2.socket_connect_timeout

/-! ## Auxiliary measures and predicates used by the verification -/

/-- The pool's construction-time capacity. -/
def poolCapacity : Nat := 3

/-- Invariant of the pool state: the ghost creation count plus the
remaining creation budget equals the capacity, and the budget is never
negative. -/
def Pool.Inv (p : Pool) : Prop :=
  (p.created : Int) + p.max_connections = (poolCapacity : Int) ∧ 0 ≤ p.max_connections

/-- Does the input not start with a decimal digit?  (Guard needed so that
a printed integer is not extended by subsequent characters.) -/
def noLeadingDigit : List Char → Bool
  | [] => true
  | c :: _ => !isDigitChar c

mutual

/-- Fuel sufficient for `parseVal` to parse the printed form of `v`. -/
def needV : PyValue → Nat
  | .list xs => needE xs + 1
  | .dict kvs => needM kvs + 1
  | _ => 1

/-- Fuel sufficient for `parseElems` on the printed elements. -/
def needE : List PyValue → Nat
  | [] => 0
  | x :: xs => max (needV x) (needE xs) + 1

/-- Fuel sufficient for `parseMembers` on the printed members. -/
def needM : List (List Char × PyValue) → Nat
  | [] => 0
  | kv :: kvs => max (needV kv.2) (needM kvs) + 1

end

/-! # Theorems -/

/-! ## C1, C2, C8 — connection pool -/

/-- C1.  The pool violates the one-place invariant: on a fresh pool,
`get_connection` takes the creation branch, and `_create_connection` both
appends the new connection to `available_connections` and returns it, so
the very connection handed to the caller (id 0) is still in the pool's
available list afterwards. -/
theorem pool_returned_connection_still_available :
    Pool.init.get_connection (fun _ => []) =
      .ret (some 0) { max_connections := 2, available_connections := [0], created := 1 } ∧
    0 ∈ ({ max_connections := 2, available_connections := [0], created := 1 } : Pool).available_connections :=
  ⟨rfl, by simp⟩

/-- C2.  On an exhausted pool, the waiting branch of `get_connection`
assigns the result of `wait_and_pop_connection` to a local without
returning it: when a connection (id 7) becomes available during the wait
the call still returns `None` (and the popped connection is lost), while
the pure timeout half behaves as specified. -/
theorem get_connection_wait_branch_returns_none :
    (Pool.mk 0 [] 3).get_connection (fun _ => [7]) = .ret none (Pool.mk 0 [] 3) ∧
    (Pool.mk 0 [] 3).get_connection (fun _ => []) = .timeoutErr (Pool.mk 0 [] 3) :=
  ⟨rfl, by decide⟩

/-- One pool operation preserves the capacity invariant. -/
theorem Pool.applyOp_inv (p : Pool) (op : PoolOp) (h : p.Inv) : (p.applyOp op).Inv := by
  obtain ⟨h1, h2⟩ := h
  cases op with
  | release c =>
    exact ⟨h1, h2⟩
  | get schedule =>
    simp only [Pool.applyOp, Pool.get_connection]
    rcases hl : p.available_connections.getLast? with _ | c
    · simp only
      by_cases hm : 0 < p.max_connections
      · simp only [if_pos hm, Pool.create_connection, Pool.add_to_available_connections, Pool.Inv]
        constructor
        · push_cast
          omega
        · omega
      · simp only [if_neg hm]
        rcases wait_and_pop_connection schedule with _ | _
        · exact ⟨h1, h2⟩
        · exact ⟨h1, h2⟩
    · exact ⟨h1, h2⟩

/-- The invariant holds after any operation sequence from a state
satisfying it. -/
theorem Pool.runOps_inv (ops : List PoolOp) : ∀ p : Pool, p.Inv → (p.runOps ops).Inv := by
  induction ops with
  | nil => exact fun p h => h
  | cons op ops ih =>
    intro p h
    exact ih (p.applyOp op) (p.applyOp_inv op h)

/-- C8.  Capacity bound: across any sequence of `get_connection` and
`release_connection` calls starting from a fresh pool, at most
`poolCapacity = 3` connections are ever created (the creation branch is
guarded by `max_connections > 0`, and each creation decrements that
budget). -/
theorem pool_created_le_capacity (ops : List PoolOp) :
    (Pool.init.runOps ops).created ≤ poolCapacity := by
  have h := Pool.runOps_inv ops Pool.init (by constructor <;> simp [Pool.init, poolCapacity])
  obtain ⟨h1, h2⟩ := h
  omega

/-! ## C3, C4 — `Connection.execute` -/

/-- C3.  The success contract fails on both branches: a select statement
on which the driver succeeds (returning one row) makes `execute` return
Python `None` — the `return` of the success path sits inside the `else`
branch — and a non-select statement returns a `QueryResult` whose `rows`
attribute was never assigned by `QueryResult.__init__` (modelled as
`rows = none`), not an empty sequence. -/
theorem execute_success_contract_broken :
    Connection.execute ⟨true, true, true, [["1"]]⟩ false ("SELECT 1") = .ret none ∧
    Connection.execute ⟨true, true, true, []⟩ false ("INSERT INTO t VALUES (1)") =
      .ret (some { rows := none, success := true, error_message := "" }) :=
  ⟨by decide, by decide⟩

/-- C4.  The failure path does not return a `QueryResult`: when
`cursor.execute` raises, the `except` block evaluates the unbound local
`rows` and `execute` raises `UnboundLocalError`; when `conn.cursor()`
itself raises on a connection that never had a cursor, the `finally`
block's `self.cursor.close()` raises `AttributeError`; and
`QueryResult.__init__` leaves the `rows` attribute unset even on the
success path. -/
theorem execute_failure_raises_instead_of_returning :
    Connection.execute ⟨true, false, true, []⟩ false ("SELECT 1") = .raised .unboundLocal ∧
    Connection.execute ⟨false, true, true, []⟩ false ("SELECT 1") = .raised .attributeError ∧
    Connection.execute ⟨false, true, true, []⟩ true ("SELECT 1") = .raised .unboundLocal ∧
    (QueryResult.make [["1"]] false "boom").rows = none :=
  ⟨by decide, by decide, by decide, rfl⟩

/-! ## C5 — transient errors are not retried by the typed operations -/

/-- C5.  A `redis.ConnectionError` raised by `self._client.set` is caught
by `set_kv`'s blanket `except Exception` and re-raised as
`RedisOperationError` before the `retry_on_connection_error` wrapper can
see it: the body runs exactly once, no back-off sleep happens, and the
caller sees an operation error rather than retries escalating to a
connection error. -/
theorem set_kv_transient_error_not_retried :
    set_kv (fun _ => [128]) ⟨{ host := "h", port := 6379, db := 0 }, true⟩ "k" (.int 5)
        (fun _ => .connError "Connection refused") =
      { result := .error (.redisOperationError "Failed to set key k: Connection refused"),
        attempts := 1, sleeps := [] } :=
  rfl

/-! ## C7 — retry bound and back-off schedule of the decorator -/

/-- When every attempt fails transiently, the loop from `attempt` with
`fuel` remaining iterations performs exactly `fuel` invocations, sleeps
`delay * backoff ^ i` after each attempt `i` except the last, and ends in
a `RedisConnectionError` wrapping the last failure message. -/
theorem retryGo_transient {α : Type} (mr : Nat) (d b : ℚ) (body : Nat → CallOutcome α)
    (m : Nat → String) (h : ∀ i, body i = .transient (m i)) :
    ∀ fuel attempt last, attempt + fuel = mr + 1 → 1 ≤ fuel →
      retryGo mr d b body attempt fuel last =
        { result := .error (.redisConnectionError (retryFailMsg (mr + 1) (some (m mr)))),
          attempts := fuel,
          sleeps := (List.range' attempt (fuel - 1)).map (fun i => d * b ^ i) } := by
  intro fuel
  induction fuel with
  | zero =>
    intro attempt last h1 h2
    omega
  | succ fuel ih =>
    intro attempt last h1 _
    simp only [retryGo, h attempt]
    cases fuel with
    | zero =>
      have ha : attempt = mr := by omega
      subst ha
      simp [retryGo, List.range']
    | succ f =>
      have hlt : attempt < mr := by omega
      rw [ih (attempt + 1) (some (m attempt)) (by omega) (by omega)]
      simp only [if_pos hlt]
      simp [List.range']

/-- C7.  A function wrapped by `retry_on_connection_error(max_retries,
delay, backoff)` whose every invocation raises a transient
connection/timeout error is invoked exactly `max_retries + 1` times, with
a sleep of `delay * backoff ^ attempt` after each failed attempt `0 ..
max_retries - 1`, and then raises a `RedisConnectionError` wrapping the
last underlying failure. -/
theorem retry_exhaustion_schedule {α : Type} (mr : Nat) (d b : ℚ) (body : Nat → CallOutcome α)
    (m : Nat → String) (h : ∀ i, body i = .transient (m i)) :
    retryRun mr d b body =
      { result := .error (.redisConnectionError (retryFailMsg (mr + 1) (some (m mr)))),
        attempts := mr + 1,
        sleeps := (List.range mr).map (fun i => d * b ^ i) } := by
  rw [retryRun, retryGo_transient mr d b body m h (mr + 1) 0 none (by omega) (by omega)]
  simp [List.range_eq_range']

/-- C7 witness: with `max_retries = 3`, `delay = 0.1`, `backoff = 2`, an
always-transient body runs exactly 4 times and fails with a connection
error, after sleeps `0.1 * 2 ^ i` for `i = 0, 1, 2`. -/
theorem retry_exhaustion_schedule_witness :
    (∀ i : Nat, (fun _ : Nat => (CallOutcome.transient "boom" : CallOutcome Bool)) i =
        .transient ((fun _ : Nat => "boom") i)) ∧
    retryRun 3 (1 / 10) 2 (fun _ => (.transient "boom" : CallOutcome Bool)) =
      { result := .error (.redisConnectionError (retryFailMsg 4 (some "boom"))),
        attempts := 4,
        sleeps := (List.range 3).map (fun i => (1 / 10 : ℚ) * 2 ^ i) } :=
  ⟨fun _ => rfl,
   retry_exhaustion_schedule 3 (1 / 10) 2 (fun _ => .transient "boom") (fun _ => "boom")
     (fun _ => rfl)⟩

/-! ## C10 — the configuration's retry settings are inert -/

/-- C10.  Two clients whose configurations agree everywhere except the
retry settings (`max_retries`, `retry_delay`, `backoff_factor`) produce
identical traces — result, attempt count and sleep schedule — for
`set_kv` and `get` under any driver behaviour: the operations are wrapped
with the decorator's own defaults and never read the configuration's
retry fields. -/
theorem retry_settings_inert (cl1 cl2 : RedisClient)
    (hcfg : sameExceptRetry cl1.config cl2.config) (hinit : cl1.clientInit = cl2.clientInit)
    (pickleDumps : PyValue → List Nat) (jl : List Char → Option PyValue)
    (pl : List Nat → Option PyValue) (key : String) (value : PyValue) (dj : Bool)
    (setDriver : Nat → DriverOutcome Bool) (getDriver : Nat → DriverOutcome (Option (List Nat))) :
    set_kv pickleDumps cl1 key value setDriver = set_kv pickleDumps cl2 key value setDriver ∧
    redis_get jl pl cl1 key dj getDriver = redis_get jl pl cl2 key dj getDriver := by
  have hset : set_kv_body pickleDumps cl1 key value setDriver =
      set_kv_body pickleDumps cl2 key value setDriver := by
    funext attempt
    simp only [set_kv_body, hinit]
  have hget : get_body jl pl cl1 key dj getDriver = get_body jl pl cl2 key dj getDriver := by
    funext attempt
    simp only [get_body, hinit]
  exact ⟨by rw [set_kv, set_kv, hset], by rw [redis_get, redis_get, hget]⟩

/-- C10 witness: two concrete clients differing (only) in all three retry
settings give identical `set_kv` and `get` traces. -/
theorem retry_settings_inert_witness :
    sameExceptRetry { host := "h", port := 6379, db := 0 }
      { host := "h", port := 6379, db := 0, max_retries := 9, retry_delay := 5,
        backoff_factor := 7 } ∧
    set_kv (fun _ => []) ⟨{ host := "h", port := 6379, db := 0 }, true⟩ "k" (.int 1)
        (fun _ => .ok true) =
      set_kv (fun _ => [])
        ⟨{ host := "h", port := 6379, db := 0, max_retries := 9, retry_delay := 5,
           backoff_factor := 7 }, true⟩ "k" (.int 1) (fun _ => .ok true) ∧
    redis_get jsonLoads (fun _ => none) ⟨{ host := "h", port := 6379, db := 0 }, true⟩ "k" true
        (fun _ => .ok none) =
      redis_get jsonLoads (fun _ => none)
        ⟨{ host := "h", port := 6379, db := 0, max_retries := 9, retry_delay := 5,
           backoff_factor := 7 }, true⟩ "k" true (fun _ => .ok none) :=
  ⟨⟨rfl, rfl, rfl, rfl, rfl, rfl, rfl, rfl, rfl, rfl, rfl, rfl, rfl, rfl, rfl⟩,
   (retry_settings_inert ⟨{ host := "h", port := 6379, db := 0 }, true⟩
      ⟨{ host := "h", port := 6379, db := 0, max_retries := 9, retry_delay := 5,
         backoff_factor := 7 }, true⟩
      ⟨rfl, rfl, rfl, rfl, rfl, rfl, rfl, rfl, rfl, rfl, rfl, rfl, rfl, rfl, rfl⟩ rfl
      (fun _ => []) jsonLoads (fun _ => none) "k" (.int 1) true
      (fun _ => .ok true) (fun _ => .ok none)).1,
   (retry_settings_inert ⟨{ host := "h", port := 6379, db := 0 }, true⟩
      ⟨{ host := "h", port := 6379, db := 0, max_retries := 9, retry_delay := 5,
         backoff_factor := 7 }, true⟩
      ⟨rfl, rfl, rfl, rfl, rfl, rfl, rfl, rfl, rfl, rfl, rfl, rfl, rfl, rfl, rfl⟩ rfl
      (fun _ => []) jsonLoads (fun _ => none) "k" (.int 1) true
      (fun _ => .ok true) (fun _ => .ok none)).2⟩

/-! ## C6 — deserialization fallback chain -/

/-- C6 counterexample: the byte sequence `[0xFF]` is not valid UTF-8, and
`value.decode("utf-8")` sits outside every `try` in
`_deserialize_value`, so the call raises `UnicodeDecodeError` instead of
degrading to text — refuting "never raises for any input byte
sequence". -/
theorem deserialize_nonutf8_raises :
    deserialize_value jsonLoads (fun _ => none) (some [255]) true =
      .error .unicodeDecodeError :=
  rfl

/-- C6 (amended).  For every byte value whose UTF-8 decoding succeeds,
`_deserialize_value` with JSON decoding requested returns without
raising, and its value follows the three-tier chain in fixed order: the
JSON parse of the decoded text if that succeeds, otherwise the binary
deserializer applied to the original bytes if that succeeds, otherwise
the decoded text unchanged. -/
theorem deserialize_fallback_chain (jl : List Char → Option PyValue)
    (pl : List Nat → Option PyValue) (bs : List Nat) (d : List Char)
    (h : utf8Decode bs = some d) :
    deserialize_value jl pl (some bs) true =
      .ok (match jl d with
           | some v => v
           | none =>
             match pl bs with
             | some v => v
             | none => .str d) := by
  cases hj : jl d with
  | some v => simp [deserialize_value, h, hj]
  | none => cases hp : pl bs <;> simp [deserialize_value, h, hj, hp]

/-- C6 witness: the bytes of `"hi"` decode, both the JSON and the binary
deserializer fail on them, and the chain returns the decoded text. -/
theorem deserialize_fallback_chain_witness :
    utf8Decode [104, 105] = some ['h', 'i'] ∧
    deserialize_value (fun _ => none) (fun _ => none) (some [104, 105]) true =
      .ok (.str ['h', 'i']) :=
  ⟨rfl, deserialize_fallback_chain (fun _ => none) (fun _ => none) [104, 105] ['h', 'i'] rfl⟩

/-! ## C9 — serialization round-trip: supporting lemmas -/

theorem toNat_ofNat_valid (n : Nat) (h : n.isValidChar) : (Char.ofNat n).toNat = n := by
  rw [Char.ofNat, dif_pos h]
  rfl

theorem char_toNat_lt (c : Char) : c.toNat < 1114112 := by
  rcases c.valid with h | h
  · exact Nat.lt_trans h (by norm_num)
  · exact h.2

theorem char_toNat_not_surrogate (c : Char) : c.toNat < 55296 ∨ 57343 < c.toNat := by
  rcases c.valid with h | h
  · exact Or.inl h
  · exact Or.inr h.1

theorem utf8DecodeChar_char (c : Char) (rest : List Nat) :
    utf8DecodeChar (utf8Char c ++ rest) = some (c, rest) := by
  have hv := char_toNat_lt c
  have hs := char_toNat_not_surrogate c
  by_cases h1 : c.toNat < 0x80
  · rw [show utf8Char c = [c.toNat] by rw [utf8Char, if_pos h1]]
    rw [List.singleton_append, utf8DecodeChar.eq_def]
    simp only [if_pos h1, Char.ofNat_toNat]
  · by_cases h2 : c.toNat < 0x800
    · have e1 : ¬(0xC0 + c.toNat / 0x40 < 0x80) := by omega
      have e2 : ¬(0xC0 + c.toNat / 0x40 < 0xC2) := by omega
      have e3 : 0xC0 + c.toNat / 0x40 < 0xE0 := by omega
      have e4 : isCont (0x80 + c.toNat % 0x40) = true := by
        simp only [isCont, Bool.and_eq_true, decide_eq_true_eq]
        omega
      have e5 : (0xC0 + c.toNat / 0x40 - 0xC0) * 0x40 + (0x80 + c.toNat % 0x40 - 0x80) =
          c.toNat := by omega
      rw [show utf8Char c = [0xC0 + c.toNat / 0x40, 0x80 + c.toNat % 0x40] by
        rw [utf8Char]; rw [if_neg h1, if_pos h2]]
      rw [List.cons_append, List.singleton_append, utf8DecodeChar.eq_def]
      simp only [if_neg e1, if_neg e2, if_pos e3, e4, if_true, e5, Char.ofNat_toNat]
    · by_cases h3 : c.toNat < 0x10000
      · have e1 : ¬(0xE0 + c.toNat / 0x1000 < 0x80) := by omega
        have e2 : ¬(0xE0 + c.toNat / 0x1000 < 0xC2) := by omega
        have e3 : ¬(0xE0 + c.toNat / 0x1000 < 0xE0) := by omega
        have e4 : 0xE0 + c.toNat / 0x1000 < 0xF0 := by omega
        have e5 : (isCont (0x80 + c.toNat / 0x40 % 0x40) && isCont (0x80 + c.toNat % 0x40) &&
            decide (0x800 ≤ c.toNat) && decide (c.toNat < 0xD800 ∨ 0xE000 ≤ c.toNat)) = true := by
          simp only [isCont, Bool.and_eq_true, decide_eq_true_eq]
          omega
        have e6 : (0xE0 + c.toNat / 0x1000 - 0xE0) * 0x1000 +
            (0x80 + c.toNat / 0x40 % 0x40 - 0x80) * 0x40 + (0x80 + c.toNat % 0x40 - 0x80) =
            c.toNat := by omega
        rw [show utf8Char c = [0xE0 + c.toNat / 0x1000, 0x80 + c.toNat / 0x40 % 0x40,
            0x80 + c.toNat % 0x40] by rw [utf8Char]; rw [if_neg h1, if_neg h2, if_pos h3]]
        rw [List.cons_append, List.cons_append, List.singleton_append, utf8DecodeChar.eq_def]
        simp only [if_neg e1, if_neg e2, if_neg e3, if_pos e4, e6, e5, if_true, Char.ofNat_toNat]
      · have e1 : ¬(0xF0 + c.toNat / 0x40000 < 0x80) := by omega
        have e2 : ¬(0xF0 + c.toNat / 0x40000 < 0xC2) := by omega
        have e3 : ¬(0xF0 + c.toNat / 0x40000 < 0xE0) := by omega
        have e4 : ¬(0xF0 + c.toNat / 0x40000 < 0xF0) := by omega
        have e5 : 0xF0 + c.toNat / 0x40000 < 0xF5 := by omega
        have e6 : (isCont (0x80 + c.toNat / 0x1000 % 0x40) &&
            isCont (0x80 + c.toNat / 0x40 % 0x40) && isCont (0x80 + c.toNat % 0x40) &&
            decide (0x10000 ≤ c.toNat) && decide (c.toNat < 0x110000)) = true := by
          simp only [isCont, Bool.and_eq_true, decide_eq_true_eq]
          omega
        have e7 : (0xF0 + c.toNat / 0x40000 - 0xF0) * 0x40000 +
            (0x80 + c.toNat / 0x1000 % 0x40 - 0x80) * 0x1000 +
            (0x80 + c.toNat / 0x40 % 0x40 - 0x80) * 0x40 + (0x80 + c.toNat % 0x40 - 0x80) =
            c.toNat := by omega
        rw [show utf8Char c = [0xF0 + c.toNat / 0x40000, 0x80 + c.toNat / 0x1000 % 0x40,
            0x80 + c.toNat / 0x40 % 0x40, 0x80 + c.toNat % 0x40] by
          rw [utf8Char]; rw [if_neg h1, if_neg h2, if_neg h3]]
        rw [List.cons_append, List.cons_append, List.cons_append, List.singleton_append,
          utf8DecodeChar.eq_def]
        simp only [if_neg e1, if_neg e2, if_neg e3, if_neg e4, if_pos e5, e7, e6, if_true,
          Char.ofNat_toNat]

theorem utf8Char_shape (c : Char) : ∃ b tl, utf8Char c = b :: tl := by
  rw [utf8Char]
  split
  · exact ⟨_, _, rfl⟩
  · split
    · exact ⟨_, _, rfl⟩
    · split
      · exact ⟨_, _, rfl⟩
      · exact ⟨_, _, rfl⟩

theorem utf8Encode_length_ge (s : List Char) : s.length ≤ (utf8Encode s).length := by
  induction s with
  | nil => simp [utf8Encode]
  | cons c cs ih =>
    obtain ⟨b, tl, hb⟩ := utf8Char_shape c
    simp only [utf8Encode, hb, List.length_append, List.length_cons]
    omega

theorem utf8DecodeGo_encode (s : List Char) :
    ∀ fuel, s.length ≤ fuel → utf8DecodeGo fuel (utf8Encode s) = some s := by
  induction s with
  | nil =>
    intro fuel _
    simp [utf8Encode, utf8DecodeGo]
  | cons c cs ih =>
    intro fuel hf
    cases fuel with
    | zero => simp at hf
    | succ f =>
      obtain ⟨b, tl, hb⟩ := utf8Char_shape c
      show utf8DecodeGo (f + 1) (utf8Char c ++ utf8Encode cs) = some (c :: cs)
      rw [hb, List.cons_append, utf8DecodeGo]
      rw [← List.cons_append, ← hb, utf8DecodeChar_char]
      simp only [ih f (by simpa using hf)]
      rfl

theorem utf8Decode_encode (s : List Char) : utf8Decode (utf8Encode s) = some s :=
  utf8DecodeGo_encode s (utf8Encode s).length (utf8Encode_length_ge s)

theorem parseHexDigit_hexDigitChar (n : Nat) (h : n < 16) :
    parseHexDigit (hexDigitChar n) = some n := by
  by_cases h10 : n < 10
  · have ht : (Char.ofNat (48 + n)).toNat = 48 + n := toNat_ofNat_valid _ (Or.inl (by omega))
    rw [hexDigitChar, if_pos h10, parseHexDigit, ht, if_pos (by omega)]
    congr 1
    omega
  · have ht : (Char.ofNat (87 + n)).toNat = 87 + n := toNat_ofNat_valid _ (Or.inl (by omega))
    rw [hexDigitChar, if_neg h10, parseHexDigit, ht, if_neg (by omega), if_pos (by omega)]
    congr 1
    omega

theorem hexVal4_hex4 (n : Nat) (h : n < 65536) :
    hexVal4 (hexDigitChar (n / 4096 % 16)) (hexDigitChar (n / 256 % 16))
      (hexDigitChar (n / 16 % 16)) (hexDigitChar (n % 16)) = some n := by
  rw [hexVal4, parseHexDigit_hexDigitChar _ (by omega), parseHexDigit_hexDigitChar _ (by omega),
    parseHexDigit_hexDigitChar _ (by omega), parseHexDigit_hexDigitChar _ (by omega)]
  simp only
  congr 1
  omega

theorem parseU_hex4 (n : Nat) (tail : List Char) (h : n < 65536)
    (hns : n < 55296 ∨ 57344 ≤ n) :
    parseU (hex4 n ++ tail) = some (Char.ofNat n, tail) := by
  simp only [hex4, List.cons_append, List.nil_append]
  rw [parseU, hexVal4_hex4 n h]
  simp only [if_neg (show ¬(55296 ≤ n ∧ n < 56320) by omega),
    if_neg (show ¬(56320 ≤ n ∧ n < 57344) by omega)]

theorem parseU_surrogate (n : Nat) (tail : List Char) (h1 : 65536 ≤ n) (h2 : n < 1114112) :
    parseU (hex4 (55296 + (n - 65536) / 1024) ++
      ('\\' :: 'u' :: hex4 (56320 + (n - 65536) % 1024)) ++ tail) = some (Char.ofNat n, tail) := by
  simp only [hex4, List.cons_append, List.nil_append]
  rw [parseU, hexVal4_hex4 _ (by omega)]
  simp only [if_pos (show 55296 ≤ 55296 + (n - 65536) / 1024 ∧ 55296 + (n - 65536) / 1024 < 56320
    by omega)]
  rw [parseLowSurrogate]
  simp only [if_pos (show ('\\' : Char) = '\\' ∧ ('u' : Char) = 'u' from ⟨rfl, rfl⟩)]
  rw [hexVal4_hex4 _ (by omega)]
  simp only [if_pos (show 56320 ≤ 56320 + (n - 65536) % 1024 ∧ 56320 + (n - 65536) % 1024 < 57344
    by omega)]
  rw [show 65536 + (55296 + (n - 65536) / 1024 - 55296) * 1024 +
    (56320 + (n - 65536) % 1024 - 56320) = n by omega]
  simp

theorem parseSB_escape (c : Char) (fuel : Nat) (tail : List Char) :
    parseSB (fuel + 1) (escapeChar c ++ tail) =
      (parseSB fuel tail).map (fun sr => (c :: sr.1, sr.2)) := by
  have hv := char_toNat_lt c
  have hs := char_toNat_not_surrogate c
  rw [escapeChar]
  by_cases h1 : c = '"'
  · subst h1
    rw [if_pos rfl]
    simp [parseSB, parseEscapeTok]
  rw [if_neg h1]
  by_cases h2 : c = '\\'
  · subst h2
    rw [if_pos rfl]
    simp [parseSB, parseEscapeTok]
  rw [if_neg h2]
  by_cases h3 : c = Char.ofNat 8
  · subst h3
    rw [if_pos rfl]
    simp [parseSB, parseEscapeTok]
  rw [if_neg h3]
  by_cases h4 : c = Char.ofNat 12
  · subst h4
    rw [if_pos rfl]
    simp [parseSB, parseEscapeTok]
  rw [if_neg h4]
  by_cases h5 : c = Char.ofNat 10
  · subst h5
    rw [if_pos rfl]
    simp [parseSB, parseEscapeTok]
  rw [if_neg h5]
  by_cases h6 : c = Char.ofNat 13
  · subst h6
    rw [if_pos rfl]
    simp [parseSB, parseEscapeTok]
  rw [if_neg h6]
  by_cases h7 : c = Char.ofNat 9
  · subst h7
    rw [if_pos rfl]
    simp [parseSB, parseEscapeTok]
  rw [if_neg h7]
  by_cases h8 : 0x20 ≤ c.toNat ∧ c.toNat ≤ 0x7F
  · rw [if_pos h8, List.singleton_append, parseSB]
    rw [if_neg h1, if_neg h2, if_neg (show ¬(c.toNat < 0x20) by omega)]
  rw [if_neg h8]
  by_cases h9 : c.toNat < 0x10000
  · rw [if_pos h9]
    simp only [List.cons_append]
    rw [parseSB]
    rw [if_neg (by decide), if_pos rfl]
    rw [show parseEscapeTok ('u' :: (hex4 c.toNat ++ tail)) = parseU (hex4 c.toNat ++ tail) by
      rw [parseEscapeTok]
      simp]
    rw [parseU_hex4 c.toNat tail h9 (by omega), Char.ofNat_toNat]
  · rw [if_neg h9]
    simp only [List.cons_append, List.append_assoc]
    rw [parseSB]
    rw [if_neg (by decide), if_pos rfl]
    rw [show parseEscapeTok ('u' :: (hex4 (55296 + (c.toNat - 65536) / 1024) ++
        '\\' :: 'u' :: (hex4 (56320 + (c.toNat - 65536) % 1024) ++ tail))) =
        parseU (hex4 (55296 + (c.toNat - 65536) / 1024) ++
          '\\' :: 'u' :: (hex4 (56320 + (c.toNat - 65536) % 1024) ++ tail)) by
      rw [parseEscapeTok]
      simp]
    rw [show hex4 (55296 + (c.toNat - 65536) / 1024) ++
        '\\' :: 'u' :: (hex4 (56320 + (c.toNat - 65536) % 1024) ++ tail) =
        hex4 (55296 + (c.toNat - 65536) / 1024) ++
        ('\\' :: 'u' :: hex4 (56320 + (c.toNat - 65536) % 1024)) ++ tail by
      simp [List.append_assoc]]
    rw [parseU_surrogate c.toNat tail (by omega) (by omega), Char.ofNat_toNat]

theorem escapeChar_length_pos (c : Char) : 1 ≤ (escapeChar c).length := by
  rw [escapeChar]
  repeat' split
  all_goals simp [hex4]

theorem escapeList_length_ge (s : List Char) : s.length ≤ (escapeList s).length := by
  induction s with
  | nil => simp [escapeList]
  | cons c cs ih =>
    have := escapeChar_length_pos c
    simp only [escapeList, List.length_append, List.length_cons]
    omega

theorem parseSB_quote (k : List Char) : ∀ (fuel : Nat) (rest : List Char), k.length + 1 ≤ fuel →
    parseSB fuel (escapeList k ++ '"' :: rest) = some (k, rest) := by
  induction k with
  | nil =>
    intro fuel rest hf
    cases fuel with
    | zero => omega
    | succ f =>
      show parseSB (f + 1) ('"' :: rest) = some ([], rest)
      simp [parseSB]
  | cons c cs ih =>
    intro fuel rest hf
    cases fuel with
    | zero => omega
    | succ f =>
      show parseSB (f + 1) ((escapeChar c ++ escapeList cs) ++ '"' :: rest) = some (c :: cs, rest)
      rw [List.append_assoc, parseSB_escape, ih f rest (by simp at hf; omega)]
      rfl

theorem parseStringBody_quote (k : List Char) (rest : List Char) :
    parseStringBody (escapeList k ++ '"' :: rest) = some (k, rest) := by
  have h := escapeList_length_ge k
  apply parseSB_quote
  simp only [List.length_append, List.length_cons]
  omega

theorem natDigitsGo_shape (fuel : Nat) : ∀ n, 1 ≤ fuel →
    ∃ d ds, natDigitsGo fuel n = d :: ds ∧ isDigitChar d = true := by
  induction fuel with
  | zero => omega
  | succ f ih =>
    intro n _
    rw [natDigitsGo]
    by_cases h10 : n < 10
    · rw [if_pos h10]
      refine ⟨Char.ofNat (48 + n), [], rfl, ?_⟩
      simp only [isDigitChar, toNat_ofNat_valid (48 + n) (Or.inl (by omega)),
        Bool.and_eq_true, decide_eq_true_eq]
      omega
    · rw [if_neg h10]
      cases f with
      | zero =>
        refine ⟨Char.ofNat (48 + n % 10), [], rfl, ?_⟩
        simp only [isDigitChar, toNat_ofNat_valid (48 + n % 10) (Or.inl (by omega)),
          Bool.and_eq_true, decide_eq_true_eq]
        omega
      | succ f1 =>
        obtain ⟨d, ds, hsh, hd⟩ := ih (n / 10) (by omega)
        exact ⟨d, ds ++ [Char.ofNat (48 + n % 10)], by rw [hsh]; rfl, hd⟩

theorem parseDigits_natDigitsGo (fuel : Nat) : ∀ (n acc : Nat) (rest : List Char),
    1 ≤ fuel → n < 10 ^ fuel →
    parseDigits acc (natDigitsGo fuel n ++ rest) =
      parseDigits (acc * 10 ^ (natDigitsGo fuel n).length + n) rest := by
  induction fuel with
  | zero => omega
  | succ f ih =>
    intro n acc rest _ hn
    rw [natDigitsGo]
    by_cases h10 : n < 10
    · rw [if_pos h10, List.singleton_append, parseDigits]
      rw [if_pos (by
        simp only [isDigitChar, toNat_ofNat_valid (48 + n) (Or.inl (by omega)),
          Bool.and_eq_true, decide_eq_true_eq]
        omega)]
      rw [toNat_ofNat_valid (48 + n) (Or.inl (by omega))]
      rw [show 48 + n - 48 = n by omega, List.length_singleton, pow_one]
    · rw [if_neg h10]
      have hf1 : 1 ≤ f := by
        by_contra hc
        have hf0 : f = 0 := by omega
        subst hf0
        simp at hn
        omega
      have hdiv : n / 10 < 10 ^ f := by
        rw [pow_succ] at hn
        omega
      rw [List.append_assoc, ih (n / 10) acc _ hf1 hdiv]
      rw [List.singleton_append, parseDigits]
      rw [if_pos (by
        simp only [isDigitChar, toNat_ofNat_valid (48 + n % 10) (Or.inl (by omega)),
          Bool.and_eq_true, decide_eq_true_eq]
        omega)]
      rw [toNat_ofNat_valid (48 + n % 10) (Or.inl (by omega))]
      rw [List.length_append, List.length_singleton, pow_succ, ← mul_assoc]
      rw [show 48 + n % 10 - 48 = n % 10 by omega]
      congr 1
      have hmod := Nat.div_add_mod n 10
      generalize acc * 10 ^ (natDigitsGo f (n / 10)).length = B
      omega

theorem parseDigits_stop (acc : Nat) (rest : List Char) (h : noLeadingDigit rest = true) :
    parseDigits acc rest = (acc, rest) := by
  cases rest with
  | nil => rfl
  | cons c t =>
    simp only [noLeadingDigit, Bool.not_eq_true'] at h
    rw [parseDigits, if_neg (by simp [h])]

theorem nat_lt_ten_pow_succ (n : Nat) : n < 10 ^ (n + 1) :=
  lt_of_lt_of_le (Nat.lt_pow_self (by norm_num) n)
    (Nat.pow_le_pow_right (by norm_num) (Nat.le_succ n))

theorem parseNat_natDigits (n : Nat) (rest : List Char) (h : noLeadingDigit rest = true) :
    parseNat (natDigits n ++ rest) = some (n, rest) := by
  have hpow : n < 10 ^ (n + 1) := nat_lt_ten_pow_succ n
  obtain ⟨d, ds, hsh, hd⟩ := natDigitsGo_shape (n + 1) n (by omega)
  have h1 := parseDigits_natDigitsGo (n + 1) n 0 rest (by omega) hpow
  rw [natDigits, hsh, List.cons_append, parseNat, if_pos hd, ← List.cons_append, ← hsh, h1]
  rw [zero_mul, zero_add, parseDigits_stop n rest h]

theorem parseInt_intChars (i : Int) (rest : List Char) (h : noLeadingDigit rest = true) :
    parseInt (intChars i ++ rest) = some (i, rest) := by
  by_cases hneg : i < 0
  · rw [intChars, if_pos hneg, List.cons_append, parseInt, if_pos rfl,
      parseNat_natDigits i.natAbs rest h]
    simp only [Option.map]
    congr 2
    omega
  · rw [intChars, if_neg hneg]
    obtain ⟨d, ds, hsh, hd⟩ := natDigitsGo_shape (i.natAbs + 1) i.natAbs (by omega)
    have hdm : d ≠ '-' := by
      intro he
      subst he
      simp only [isDigitChar, Bool.and_eq_true, decide_eq_true_eq] at hd
      have h45 : ('-' : Char).toNat = 45 := rfl
      omega
    rw [natDigits, hsh, List.cons_append, parseInt, if_neg hdm, ← List.cons_append, ← hsh,
      ← natDigits, parseNat_natDigits i.natAbs rest h]
    simp only [Option.map]
    congr 2
    omega

theorem skipWs_space (t : List Char) : skipWs (' ' :: t) = skipWs t := by
  simp [skipWs]

theorem skipWs_nonws (c : Char) (t : List Char)
    (h : (c = ' ' || c = '\t' || c = '\n' || c = '\r') = false) : skipWs (c :: t) = c :: t := by
  rw [skipWs]
  simp [h]

theorem parseVal_space (fuel : Nat) (t : List Char) : parseVal fuel (' ' :: t) = parseVal fuel t := by
  cases fuel with
  | zero => rfl
  | succ f => rw [parseVal, parseVal, skipWs_space]

theorem parseMembers_space (fuel : Nat) (t : List Char) :
    parseMembers fuel (' ' :: t) = parseMembers fuel t := by
  cases fuel with
  | zero => rfl
  | succ f => rw [parseMembers, parseMembers, skipWs_space]

theorem parseElems_space (fuel : Nat) (t : List Char) :
    parseElems fuel (' ' :: t) = parseElems fuel t := by
  cases fuel with
  | zero => rfl
  | succ f => rw [parseElems, parseElems, parseVal_space]

/-- Head character class of a printed JSON value. -/
theorem jsonDumps_head (v : PyValue) (s : List Char) (h : jsonDumps v = some s) :
    ∃ c cs, s = c :: cs ∧
      (c = 'n' ∨ c = 't' ∨ c = 'f' ∨ c = '"' ∨ c = '[' ∨ c = '{' ∨ c = '-' ∨
        isDigitChar c = true) := by
  cases v with
  | pynone =>
    rw [jsonDumps] at h
    exact ⟨'n', _, (Option.some.injEq _ _ ▸ h).symm, Or.inl rfl⟩
  | bool b =>
    cases b with
    | true =>
      rw [jsonDumps] at h
      exact ⟨'t', _, (Option.some.injEq _ _ ▸ h).symm, Or.inr (Or.inl rfl)⟩
    | false =>
      rw [jsonDumps] at h
      exact ⟨'f', _, (Option.some.injEq _ _ ▸ h).symm, Or.inr (Or.inr (Or.inl rfl))⟩
  | int n =>
    rw [jsonDumps] at h
    have hs : intChars n = s := Option.some.injEq _ _ ▸ h
    by_cases hneg : n < 0
    · rw [intChars, if_pos hneg] at hs
      exact ⟨'-', _, hs.symm, by tauto⟩
    · rw [intChars, if_neg hneg] at hs
      obtain ⟨d, ds, hsh, hd⟩ := natDigitsGo_shape (n.natAbs + 1) n.natAbs (by omega)
      rw [natDigits, hsh] at hs
      exact ⟨d, ds, hs.symm, by tauto⟩
  | str k =>
    rw [jsonDumps] at h
    have hs : quoteString k = s := Option.some.injEq _ _ ▸ h
    rw [quoteString] at hs
    exact ⟨'"', _, hs.symm, by tauto⟩
  | bytes bs =>
    rw [jsonDumps] at h
    exact absurd h (by simp)
  | list xs =>
    rw [jsonDumps] at h
    cases he : jsonDumpsElems xs with
    | none => rw [he] at h; exact Option.noConfusion h
    | some body =>
      rw [he] at h
      simp only [Option.map_some'] at h
      exact ⟨'[', _, (Option.some.injEq _ _ ▸ h).symm, by tauto⟩
  | dict kvs =>
    rw [jsonDumps] at h
    cases he : jsonDumpsMembers kvs with
    | none => rw [he] at h; exact Option.noConfusion h
    | some body =>
      rw [he] at h
      simp only [Option.map_some'] at h
      exact ⟨'{', _, (Option.some.injEq _ _ ▸ h).symm, by tauto⟩

/-- A printed value's head character is not whitespace and not a closing
bracket, brace, comma or colon. -/
theorem start_char_props (c : Char)
    (h : c = 'n' ∨ c = 't' ∨ c = 'f' ∨ c = '"' ∨ c = '[' ∨ c = '{' ∨ c = '-' ∨
      isDigitChar c = true) :
    (c = ' ' || c = '\t' || c = '\n' || c = '\r') = false ∧ c ≠ ']' ∧ c ≠ '}' := by
  have hd : isDigitChar c = true → 48 ≤ c.toNat ∧ c.toNat ≤ 57 := by
    simp [isDigitChar]
  rcases h with h | h | h | h | h | h | h | h
  all_goals first
    | (subst h; exact ⟨by decide, by decide, by decide⟩)
    | (have hr := hd h
       refine ⟨?_, ?_, ?_⟩
       · simp only [Bool.or_eq_false_iff, decide_eq_false_iff_not]
         refine ⟨⟨⟨fun he => ?_, fun he => ?_⟩, fun he => ?_⟩, fun he => ?_⟩ <;>
           (subst he; revert hr; decide)
       · intro he; subst he; revert hr; decide
       · intro he; subst he; revert hr; decide)

theorem needV_pos (v : PyValue) : 1 ≤ needV v := by
  cases v <;> simp [needV]

theorem jsonDumpsElems_cons_shape (x : PyValue) (xs : List PyValue) (body : List Char)
    (h : jsonDumpsElems (x :: xs) = some body) :
    ∃ sx tailb, jsonDumps x = some sx ∧ body = sx ++ tailb := by
  cases xs with
  | nil =>
    rw [jsonDumpsElems] at h
    exact ⟨body, [], h, (List.append_nil body).symm⟩
  | cons y ys =>
    rw [jsonDumpsElems] at h
    cases hdx : jsonDumps x with
    | none => rw [hdx] at h; exact absurd h (by simp)
    | some sx =>
      cases hde : jsonDumpsElems (y :: ys) with
      | none => rw [hdx, hde] at h; exact absurd h (by simp)
      | some brest =>
        rw [hdx, hde] at h
        exact ⟨sx, ',' :: ' ' :: brest, rfl, by injection h with h1; exact h1.symm⟩

theorem jsonDumpsMembers_cons_shape (kv : List Char × PyValue)
    (kvs : List (List Char × PyValue)) (body : List Char)
    (h : jsonDumpsMembers (kv :: kvs) = some body) :
    ∃ tailb, body = '"' :: tailb := by
  cases kvs with
  | nil =>
    rw [jsonDumpsMembers] at h
    cases hdv : jsonDumps kv.2 with
    | none => rw [hdv] at h; exact Option.noConfusion h
    | some sv =>
      rw [hdv] at h
      injection h with h1
      exact ⟨(escapeList kv.1 ++ ['"']) ++ ':' :: ' ' :: sv, by rw [← h1]; simp [quoteString]⟩
  | cons kv2 kvs2 =>
    rw [jsonDumpsMembers] at h
    cases hdv : jsonDumps kv.2 with
    | none => rw [hdv] at h; exact absurd h (by simp)
    | some sv =>
      cases hdm : jsonDumpsMembers (kv2 :: kvs2) with
      | none => rw [hdv, hdm] at h; exact absurd h (by simp)
      | some brest =>
        rw [hdv, hdm] at h
        injection h with h1
        exact ⟨(escapeList kv.1 ++ ['"']) ++ ':' :: ' ' :: sv ++ ',' :: ' ' :: brest, by
          rw [← h1]; simp [quoteString]⟩

theorem parseElems_dumps (xs : List PyValue)
    (IH : ∀ x ∈ xs, ∀ (s rest : List Char) (fuel : Nat), jsonDumps x = some s →
      needV x ≤ fuel → noLeadingDigit rest = true → parseVal fuel (s ++ rest) = some (x, rest)) :
    ∀ (body rest : List Char) (fuel : Nat), jsonDumpsElems xs = some body →
      needE xs ≤ fuel → xs ≠ [] →
      parseElems fuel (body ++ ']' :: rest) = some (xs, rest) := by
  induction xs with
  | nil => intro _ _ _ _ _ hne; exact absurd rfl hne
  | cons x xs ihx =>
    intro body rest fuel hd hf _
    cases fuel with
    | zero => simp [needE] at hf
    | succ f =>
      have hfx : needV x ≤ f := by simp [needE] at hf; omega
      cases xs with
      | nil =>
        rw [jsonDumpsElems] at hd
        rw [parseElems, IH x (by simp) body (']' :: rest) f hd hfx rfl]
        simp [skipWs_nonws ']' rest (by decide)]
      | cons y ys =>
        rw [jsonDumpsElems] at hd
        cases hdx : jsonDumps x with
        | none => rw [hdx] at hd; exact absurd hd (by simp)
        | some sx =>
          cases hde : jsonDumpsElems (y :: ys) with
          | none => rw [hdx, hde] at hd; exact absurd hd (by simp)
          | some brest =>
            rw [hdx, hde] at hd
            injection hd with hbody
            subst hbody
            rw [parseElems, List.append_assoc, List.cons_append, List.cons_append]
            rw [IH x (by simp) sx (',' :: ' ' :: (brest ++ ']' :: rest)) f hdx hfx rfl]
            have hfe : needE (y :: ys) ≤ f := by simp [needE] at hf ⊢; omega
            simp only [skipWs_nonws ',' _ (by decide),
              if_pos (show (',' : Char) = ',' from rfl)]
            rw [parseElems_space]
            rw [ihx (fun z hz => IH z (by simp [hz])) brest rest f hde hfe (by simp)]
            rfl

theorem parseMembers_dumps (kvs : List (List Char × PyValue))
    (IH : ∀ kv ∈ kvs, ∀ (s rest : List Char) (fuel : Nat), jsonDumps kv.2 = some s →
      needV kv.2 ≤ fuel → noLeadingDigit rest = true →
      parseVal fuel (s ++ rest) = some (kv.2, rest)) :
    ∀ (body rest : List Char) (fuel : Nat), jsonDumpsMembers kvs = some body →
      needM kvs ≤ fuel → kvs ≠ [] →
      parseMembers fuel (body ++ '}' :: rest) = some (kvs, rest) := by
  induction kvs with
  | nil => intro _ _ _ _ _ hne; exact absurd rfl hne
  | cons kv kvs ihx =>
    intro body rest fuel hd hf _
    cases fuel with
    | zero => simp [needM] at hf
    | succ f =>
      have hfv : needV kv.2 ≤ f := by simp [needM] at hf; omega
      cases kvs with
      | nil =>
        rw [jsonDumpsMembers] at hd
        cases hdv : jsonDumps kv.2 with
        | none => rw [hdv] at hd; exact Option.noConfusion hd
        | some sv =>
          rw [hdv] at hd
          injection hd with hbody
          subst hbody
          simp only []
          rw [show (quoteString kv.1 ++ ':' :: ' ' :: sv) ++ '}' :: rest =
              '"' :: (escapeList kv.1 ++ '"' :: ':' :: ' ' :: (sv ++ '}' :: rest)) by
            simp [quoteString]]
          rw [parseMembers]
          simp only [skipWs_nonws '"' _ (by decide),
            if_pos (show ('"' : Char) = '"' from rfl)]
          rw [parseStringBody_quote kv.1 (':' :: ' ' :: (sv ++ '}' :: rest))]
          simp only [skipWs_nonws ':' _ (by decide),
            if_pos (show (':' : Char) = ':' from rfl)]
          rw [parseVal_space]
          rw [IH kv (by simp) sv ('}' :: rest) f hdv hfv rfl]
          simp [skipWs_nonws '}' _ (by decide)]
      | cons kv2 kvs2 =>
        rw [jsonDumpsMembers] at hd
        cases hdv : jsonDumps kv.2 with
        | none => rw [hdv] at hd; exact absurd hd (by simp)
        | some sv =>
          cases hdm : jsonDumpsMembers (kv2 :: kvs2) with
          | none => rw [hdv, hdm] at hd; exact absurd hd (by simp)
          | some brest =>
            rw [hdv, hdm] at hd
            injection hd with hbody
            subst hbody
            have hfm : needM (kv2 :: kvs2) ≤ f := by simp [needM] at hf ⊢; omega
            rw [show (quoteString kv.1 ++ ':' :: ' ' :: sv ++ ',' :: ' ' :: brest) ++
                '}' :: rest =
                '"' :: (escapeList kv.1 ++ '"' :: ':' :: ' ' ::
                  (sv ++ ',' :: ' ' :: (brest ++ '}' :: rest))) by
              simp [quoteString]]
            rw [parseMembers]
            simp only [skipWs_nonws '"' _ (by decide),
              if_pos (show ('"' : Char) = '"' from rfl)]
            rw [parseStringBody_quote kv.1
              (':' :: ' ' :: (sv ++ ',' :: ' ' :: (brest ++ '}' :: rest)))]
            simp only [skipWs_nonws ':' _ (by decide),
              if_pos (show (':' : Char) = ':' from rfl)]
            rw [parseVal_space]
            rw [IH kv (by simp) sv (',' :: ' ' :: (brest ++ '}' :: rest)) f hdv hfv rfl]
            simp only [skipWs_nonws ',' _ (by decide),
              if_pos (show (',' : Char) = ',' from rfl)]
            rw [parseMembers_space]
            rw [ihx (fun z hz => IH z (by simp [hz])) brest rest f hdm hfm (by simp)]
            rfl


/-- A decimal-digit head character is distinct from whitespace and from
every other character that can start or close a JSON token. -/
theorem digit_head_facts (d : Char) (h : isDigitChar d = true) :
    (d = ' ' || d = '\t' || d = '\n' || d = '\r') = false ∧ d ≠ 'n' ∧ d ≠ 't' ∧ d ≠ 'f' ∧
      d ≠ '"' ∧ d ≠ '[' ∧ d ≠ '{' := by
  simp only [isDigitChar, Bool.and_eq_true, decide_eq_true_eq] at h
  refine ⟨?_, ?_, ?_, ?_, ?_, ?_, ?_⟩
  · simp only [Bool.or_eq_false_iff, decide_eq_false_iff_not]
    refine ⟨⟨⟨fun he => ?_, fun he => ?_⟩, fun he => ?_⟩, fun he => ?_⟩ <;> (subst he; revert h; decide)
  all_goals intro he; subst he; revert h; decide

/-- Parsing a printed JSON value consumes exactly the printed text. -/
theorem parseVal_dumps : ∀ (v : PyValue) (s rest : List Char) (fuel : Nat),
    jsonDumps v = some s → needV v ≤ fuel → noLeadingDigit rest = true →
    parseVal fuel (s ++ rest) = some (v, rest) := by
  suffices H : ∀ (N : Nat) (v : PyValue), sizeOf v ≤ N → ∀ (s rest : List Char) (fuel : Nat),
      jsonDumps v = some s → needV v ≤ fuel → noLeadingDigit rest = true →
      parseVal fuel (s ++ rest) = some (v, rest) by
    exact fun v => H (sizeOf v) v le_rfl
  intro N
  induction N with
  | zero => intro v hv; cases v <;> simp at hv
  | succ N ihN =>
    intro v hv s rest fuel hd hf hrest
    have hf1 : 1 ≤ fuel := le_trans (needV_pos v) hf
    cases fuel with
    | zero => omega
    | succ f =>
    cases v with
    | pynone =>
      rw [jsonDumps] at hd
      injection hd with hs
      subst hs
      show parseVal (f + 1) ('n' :: 'u' :: 'l' :: 'l' :: rest) = some (.pynone, rest)
      rw [parseVal, skipWs_nonws 'n' _ (by decide)]
      simp [parseNullTok]
    | bool b =>
      cases b with
      | true =>
        rw [jsonDumps] at hd
        injection hd with hs
        subst hs
        show parseVal (f + 1) ('t' :: 'r' :: 'u' :: 'e' :: rest) = some (.bool true, rest)
        rw [parseVal, skipWs_nonws 't' _ (by decide)]
        simp [parseTrueTok]
      | false =>
        rw [jsonDumps] at hd
        injection hd with hs
        subst hs
        show parseVal (f + 1) ('f' :: 'a' :: 'l' :: 's' :: 'e' :: rest) =
          some (.bool false, rest)
        rw [parseVal, skipWs_nonws 'f' _ (by decide)]
        simp [parseFalseTok]
    | int n =>
      rw [jsonDumps] at hd
      injection hd with hs
      subst hs
      have hI := parseInt_intChars n rest hrest
      by_cases hneg : n < 0
      · have hic : intChars n = '-' :: natDigits n.natAbs := by rw [intChars, if_pos hneg]
        rw [hic] at hI ⊢
        rw [List.cons_append] at hI ⊢
        rw [parseVal, skipWs_nonws '-' _ (by decide)]
        simp only [if_neg (show ¬(('-' : Char) = 'n') by decide),
          if_neg (show ¬(('-' : Char) = 't') by decide),
          if_neg (show ¬(('-' : Char) = 'f') by decide),
          if_neg (show ¬(('-' : Char) = '"') by decide),
          if_neg (show ¬(('-' : Char) = '[') by decide),
          if_neg (show ¬(('-' : Char) = '{') by decide),
          if_pos (show (('-' : Char) = '-' || isDigitChar '-') = true by decide)]
        rw [hI]
        rfl
      · have hic : intChars n = natDigits n.natAbs := by rw [intChars, if_neg hneg]
        obtain ⟨d, ds, hsh, hdig⟩ := natDigitsGo_shape (n.natAbs + 1) n.natAbs (by omega)
        obtain ⟨hws, hn1, hn2, hn3, hn4, hn5, hn6⟩ := digit_head_facts d hdig
        rw [hic, natDigits, hsh] at hI ⊢
        rw [List.cons_append] at hI ⊢
        rw [parseVal, skipWs_nonws d _ hws]
        simp only [if_neg hn1, if_neg hn2, if_neg hn3, if_neg hn4, if_neg hn5, if_neg hn6,
          if_pos (show (d = '-' || isDigitChar d) = true by simp [hdig])]
        rw [hI]
        rfl
    | str k =>
      rw [jsonDumps] at hd
      injection hd with hs
      subst hs
      rw [show quoteString k ++ rest = '"' :: (escapeList k ++ '"' :: rest) by
        simp [quoteString]]
      rw [parseVal, skipWs_nonws '"' _ (by decide)]
      simp only [if_neg (show ¬(('"' : Char) = 'n') by decide),
        if_neg (show ¬(('"' : Char) = 't') by decide),
        if_neg (show ¬(('"' : Char) = 'f') by decide),
        if_pos (show ('"' : Char) = '"' from rfl)]
      rw [parseStringBody_quote k rest]
      rfl
    | bytes bs =>
      rw [jsonDumps] at hd
      exact Option.noConfusion hd
    | list xs =>
      cases xs with
      | nil =>
        rw [jsonDumps, jsonDumpsElems] at hd
        injection hd with hs
        subst hs
        show parseVal (f + 1) ('[' :: ']' :: rest) = some (.list [], rest)
        rw [parseVal, skipWs_nonws '[' _ (by decide)]
        simp only [if_neg (show ¬(('[' : Char) = 'n') by decide),
          if_neg (show ¬(('[' : Char) = 't') by decide),
          if_neg (show ¬(('[' : Char) = 'f') by decide),
          if_neg (show ¬(('[' : Char) = '"') by decide),
          if_pos (show ('[' : Char) = '[' from rfl)]
        rw [skipWs_nonws ']' _ (by decide)]
        simp
      | cons x xs =>
        rw [jsonDumps] at hd
        cases hde : jsonDumpsElems (x :: xs) with
        | none => rw [hde] at hd; exact Option.noConfusion hd
        | some body =>
          rw [hde] at hd
          injection hd with hs
          subst hs
          have hfe : needE (x :: xs) ≤ f := by simp [needV] at hf; omega
          obtain ⟨sx, tailb, hdx, hbody⟩ := jsonDumpsElems_cons_shape x xs body hde
          obtain ⟨c0, cs0, hsx, hstart⟩ := jsonDumps_head x sx hdx
          obtain ⟨hws0, hne0, _⟩ := start_char_props c0 hstart
          have hbody0 : body = c0 :: (cs0 ++ tailb) := by rw [hbody, hsx]; rfl
          rw [show ('[' :: body ++ [']']) ++ rest = '[' :: (body ++ ']' :: rest) by simp]
          rw [parseVal, skipWs_nonws '[' _ (by decide)]
          simp only [if_neg (show ¬(('[' : Char) = 'n') by decide),
            if_neg (show ¬(('[' : Char) = 't') by decide),
            if_neg (show ¬(('[' : Char) = 'f') by decide),
            if_neg (show ¬(('[' : Char) = '"') by decide),
            if_pos (show ('[' : Char) = '[' from rfl)]
          rw [hbody0, List.cons_append, skipWs_nonws c0 _ hws0]
          simp only [if_neg hne0]
          rw [← List.cons_append, ← hbody0]
          have IHx : ∀ z ∈ x :: xs, ∀ (sz rz : List Char) (fz : Nat), jsonDumps z = some sz →
              needV z ≤ fz → noLeadingDigit rz = true → parseVal fz (sz ++ rz) = some (z, rz) := by
            intro z hz
            refine ihN z ?_
            have h1 := List.sizeOf_lt_of_mem hz
            simp only [PyValue.list.sizeOf_spec] at hv
            omega
          rw [parseElems_dumps (x :: xs) IHx body rest f hde hfe (by simp)]
          rfl
    | dict kvs =>
      cases kvs with
      | nil =>
        rw [jsonDumps, jsonDumpsMembers] at hd
        injection hd with hs
        subst hs
        show parseVal (f + 1) ('{' :: '}' :: rest) = some (.dict [], rest)
        rw [parseVal, skipWs_nonws '{' _ (by decide)]
        simp only [if_neg (show ¬(('{' : Char) = 'n') by decide),
          if_neg (show ¬(('{' : Char) = 't') by decide),
          if_neg (show ¬(('{' : Char) = 'f') by decide),
          if_neg (show ¬(('{' : Char) = '"') by decide),
          if_neg (show ¬(('{' : Char) = '[') by decide),
          if_pos (show ('{' : Char) = '{' from rfl)]
        rw [skipWs_nonws '}' _ (by decide)]
        simp
      | cons kv kvs =>
        rw [jsonDumps] at hd
        cases hdm : jsonDumpsMembers (kv :: kvs) with
        | none => rw [hdm] at hd; exact Option.noConfusion hd
        | some body =>
          rw [hdm] at hd
          injection hd with hs
          subst hs
          have hfm : needM (kv :: kvs) ≤ f := by simp [needV] at hf; omega
          obtain ⟨tailb, hbody⟩ := jsonDumpsMembers_cons_shape kv kvs body hdm
          rw [show ('{' :: body ++ ['}']) ++ rest = '{' :: (body ++ '}' :: rest) by simp]
          rw [parseVal, skipWs_nonws '{' _ (by decide)]
          simp only [if_neg (show ¬(('{' : Char) = 'n') by decide),
            if_neg (show ¬(('{' : Char) = 't') by decide),
            if_neg (show ¬(('{' : Char) = 'f') by decide),
            if_neg (show ¬(('{' : Char) = '"') by decide),
            if_neg (show ¬(('{' : Char) = '[') by decide),
            if_pos (show ('{' : Char) = '{' from rfl)]
          rw [hbody, List.cons_append, skipWs_nonws '"' _ (by decide)]
          simp only [if_neg (show ¬(('"' : Char) = '}') by decide)]
          rw [← List.cons_append, ← hbody]
          have IHkv : ∀ z ∈ kv :: kvs, ∀ (sz rz : List Char) (fz : Nat),
              jsonDumps z.2 = some sz → needV z.2 ≤ fz → noLeadingDigit rz = true →
              parseVal fz (sz ++ rz) = some (z.2, rz) := by
            intro z hz
            refine ihN z.2 ?_
            have h1 := List.sizeOf_lt_of_mem hz
            have h2 : sizeOf z.2 < sizeOf z := by
              obtain ⟨zk, zv⟩ := z
              simp
            simp only [PyValue.dict.sizeOf_spec] at hv
            omega
          rw [parseMembers_dumps (kv :: kvs) IHkv body rest f hdm hfm (by simp)]
          rfl

theorem needE_le_length (xs : List PyValue)
    (IH : ∀ x ∈ xs, ∀ sx : List Char, jsonDumps x = some sx → needV x ≤ sx.length) :
    ∀ body : List Char, jsonDumpsElems xs = some body → needE xs ≤ body.length + 1 := by
  induction xs with
  | nil => intro body _; simp [needE]
  | cons x xs ihx =>
    intro body hd
    cases xs with
    | nil =>
      rw [jsonDumpsElems] at hd
      have h1 := IH x (by simp) body hd
      simp [needE]
      omega
    | cons y ys =>
      rw [jsonDumpsElems] at hd
      cases hdx : jsonDumps x with
      | none => rw [hdx] at hd; exact absurd hd (by simp)
      | some sx =>
        cases hde : jsonDumpsElems (y :: ys) with
        | none => rw [hdx, hde] at hd; exact absurd hd (by simp)
        | some brest =>
          rw [hdx, hde] at hd
          injection hd with hbody
          subst hbody
          have h1 := IH x (by simp) sx hdx
          have h2 := ihx (fun z hz => IH z (by simp [hz])) brest hde
          simp only [needE, List.length_append, List.length_cons]
          simp only [needE] at h2
          omega

theorem needM_le_length (kvs : List (List Char × PyValue))
    (IH : ∀ kv ∈ kvs, ∀ sv : List Char, jsonDumps kv.2 = some sv → needV kv.2 ≤ sv.length) :
    ∀ body : List Char, jsonDumpsMembers kvs = some body → needM kvs ≤ body.length + 1 := by
  induction kvs with
  | nil => intro body _; simp [needM]
  | cons kv kvs ihx =>
    intro body hd
    cases kvs with
    | nil =>
      rw [jsonDumpsMembers] at hd
      cases hdv : jsonDumps kv.2 with
      | none => rw [hdv] at hd; exact Option.noConfusion hd
      | some sv =>
        rw [hdv] at hd
        injection hd with hbody
        subst hbody
        have h1 := IH kv (by simp) sv hdv
        simp only [needM, needE, List.length_append, List.length_cons]
        simp [needM]
        omega
    | cons kv2 kvs2 =>
      rw [jsonDumpsMembers] at hd
      cases hdv : jsonDumps kv.2 with
      | none => rw [hdv] at hd; exact absurd hd (by simp)
      | some sv =>
        cases hdm : jsonDumpsMembers (kv2 :: kvs2) with
        | none => rw [hdv, hdm] at hd; exact absurd hd (by simp)
        | some brest =>
          rw [hdv, hdm] at hd
          injection hd with hbody
          subst hbody
          have h1 := IH kv (by simp) sv hdv
          have h2 := ihx (fun z hz => IH z (by simp [hz])) brest hdm
          simp only [needM, List.length_append, List.length_cons]
          simp only [needM] at h2
          omega

theorem needV_le_length : ∀ (v : PyValue) (s : List Char), jsonDumps v = some s →
    needV v ≤ s.length := by
  suffices H : ∀ (N : Nat) (v : PyValue), sizeOf v ≤ N → ∀ s : List Char,
      jsonDumps v = some s → needV v ≤ s.length by
    exact fun v => H (sizeOf v) v le_rfl
  intro N
  induction N with
  | zero => intro v hv; cases v <;> simp at hv
  | succ N ihN =>
    intro v hv s hd
    cases v with
    | pynone =>
      rw [jsonDumps] at hd
      injection hd with hs
      subst hs
      simp [needV]
    | bool b =>
      cases b <;> (rw [jsonDumps] at hd; injection hd with hs; subst hs; simp [needV])
    | int n =>
      rw [jsonDumps] at hd
      injection hd with hs
      subst hs
      by_cases hneg : n < 0
      · rw [intChars, if_pos hneg]
        simp [needV]
      · obtain ⟨d, ds, hsh, _⟩ := natDigitsGo_shape (n.natAbs + 1) n.natAbs (by omega)
        rw [intChars, if_neg hneg, natDigits, hsh]
        simp [needV]
    | str k =>
      rw [jsonDumps] at hd
      injection hd with hs
      subst hs
      simp [needV, quoteString]
    | bytes bs =>
      rw [jsonDumps] at hd
      exact Option.noConfusion hd
    | list xs =>
      rw [jsonDumps] at hd
      cases hde : jsonDumpsElems xs with
      | none => rw [hde] at hd; exact Option.noConfusion hd
      | some body =>
        rw [hde] at hd
        injection hd with hs
        subst hs
        have IHx : ∀ x ∈ xs, ∀ sx : List Char, jsonDumps x = some sx → needV x ≤ sx.length := by
          intro x hx
          refine ihN x ?_
          have h1 := List.sizeOf_lt_of_mem hx
          simp only [PyValue.list.sizeOf_spec] at hv
          omega
        have h2 := needE_le_length xs IHx body hde
        simp only [needV, List.length_append, List.length_cons]
        simp only [List.length_nil]
        omega
    | dict kvs =>
      rw [jsonDumps] at hd
      cases hdm : jsonDumpsMembers kvs with
      | none => rw [hdm] at hd; exact Option.noConfusion hd
      | some body =>
        rw [hdm] at hd
        injection hd with hs
        subst hs
        have IHkv : ∀ kv ∈ kvs, ∀ sv : List Char, jsonDumps kv.2 = some sv →
            needV kv.2 ≤ sv.length := by
          intro kv hkv
          refine ihN kv.2 ?_
          have h1 := List.sizeOf_lt_of_mem hkv
          have h2 : sizeOf kv.2 < sizeOf kv := by
            obtain ⟨zk, zv⟩ := kv
            simp
          simp only [PyValue.dict.sizeOf_spec] at hv
          omega
        have h2 := needM_le_length kvs IHkv body hdm
        simp only [needV, List.length_append, List.length_cons]
        simp only [List.length_nil]
        omega

theorem jsonDumpsElems_total (xs : List PyValue)
    (IH : ∀ x ∈ xs, ∃ sx, jsonDumps x = some sx) :
    ∃ body, jsonDumpsElems xs = some body := by
  induction xs with
  | nil => exact ⟨[], rfl⟩
  | cons x xs ihx =>
    obtain ⟨sx, hsx⟩ := IH x (by simp)
    cases xs with
    | nil => exact ⟨sx, by rw [jsonDumpsElems]; exact hsx⟩
    | cons y ys =>
      obtain ⟨brest, hbrest⟩ := ihx (fun z hz => IH z (by simp [hz]))
      refine ⟨sx ++ ',' :: ' ' :: brest, ?_⟩
      rw [jsonDumpsElems, hsx, hbrest]

theorem jsonDumpsMembers_total (kvs : List (List Char × PyValue))
    (IH : ∀ kv ∈ kvs, ∃ sv, jsonDumps kv.2 = some sv) :
    ∃ body, jsonDumpsMembers kvs = some body := by
  induction kvs with
  | nil => exact ⟨[], rfl⟩
  | cons kv kvs ihx =>
    obtain ⟨sv, hsv⟩ := IH kv (by simp)
    cases kvs with
    | nil => exact ⟨quoteString kv.1 ++ ':' :: ' ' :: sv, by rw [jsonDumpsMembers, hsv]; rfl⟩
    | cons kv2 kvs2 =>
      obtain ⟨brest, hbrest⟩ := ihx (fun z hz => IH z (by simp [hz]))
      refine ⟨quoteString kv.1 ++ ':' :: ' ' :: sv ++ ',' :: ' ' :: brest, ?_⟩
      rw [jsonDumpsMembers, hsv, hbrest]

theorem jsonOkList_mem (xs : List PyValue) (h : jsonOkList xs = true) :
    ∀ x ∈ xs, jsonOk x = true := by
  induction xs with
  | nil => intro x hx; simp at hx
  | cons y ys ih =>
    rw [jsonOkList] at h
    simp only [Bool.and_eq_true] at h
    intro x hx
    rcases List.mem_cons.mp hx with he | hm
    · subst he; exact h.1
    · exact ih h.2 x hm

theorem jsonOkDict_mem (kvs : List (List Char × PyValue)) (h : jsonOkDict kvs = true) :
    ∀ kv ∈ kvs, jsonOk kv.2 = true := by
  induction kvs with
  | nil => intro kv hkv; simp at hkv
  | cons y ys ih =>
    rw [jsonOkDict] at h
    simp only [Bool.and_eq_true] at h
    intro kv hkv
    rcases List.mem_cons.mp hkv with he | hm
    · subst he; exact h.1
    · exact ih h.2 kv hm

theorem jsonDumps_total : ∀ v : PyValue, jsonOk v = true → ∃ s, jsonDumps v = some s := by
  suffices H : ∀ (N : Nat) (v : PyValue), sizeOf v ≤ N → jsonOk v = true →
      ∃ s, jsonDumps v = some s by
    exact fun v => H (sizeOf v) v le_rfl
  intro N
  induction N with
  | zero => intro v hv; cases v <;> simp at hv
  | succ N ihN =>
    intro v hv hok
    cases v with
    | pynone => exact ⟨_, rfl⟩
    | bool b => cases b <;> exact ⟨_, rfl⟩
    | int n => exact ⟨_, rfl⟩
    | str k => exact ⟨_, rfl⟩
    | bytes bs => simp [jsonOk] at hok
    | list xs =>
      have hokl : jsonOkList xs = true := by simpa [jsonOk] using hok
      have IHx : ∀ x ∈ xs, ∃ sx, jsonDumps x = some sx := by
        intro x hx
        refine ihN x ?_ ?_
        · have h1 := List.sizeOf_lt_of_mem hx
          simp only [PyValue.list.sizeOf_spec] at hv
          omega
        · exact jsonOkList_mem xs hokl x hx
      obtain ⟨body, hbody⟩ := jsonDumpsElems_total xs IHx
      exact ⟨_, by rw [jsonDumps, hbody]; rfl⟩
    | dict kvs =>
      have hokl : jsonOkDict kvs = true := by simpa [jsonOk] using hok
      have IHkv : ∀ kv ∈ kvs, ∃ sv, jsonDumps kv.2 = some sv := by
        intro kv hkv
        refine ihN kv.2 ?_ ?_
        · have h1 := List.sizeOf_lt_of_mem hkv
          have h2 : sizeOf kv.2 < sizeOf kv := by
            obtain ⟨zk, zv⟩ := kv
            simp
          simp only [PyValue.dict.sizeOf_spec] at hv
          omega
        · exact jsonOkDict_mem kvs hokl kv hkv
      obtain ⟨body, hbody⟩ := jsonDumpsMembers_total kvs IHkv
      exact ⟨_, by rw [jsonDumps, hbody]; rfl⟩

theorem jsonLoads_dumps (v : PyValue) (s : List Char) (hd : jsonDumps v = some s) :
    jsonLoads s = some v := by
  have hlen := needV_le_length v s hd
  have hp := parseVal_dumps v s [] (s.length + 1) hd (by omega) rfl
  rw [List.append_nil] at hp
  rw [jsonLoads, hp]
  rfl

/-- C9.  Serialization round-trip: for every structured value (a `dict`
or `list` built from JSON-representable scalars), `_serialize_value`
produces the JSON text of the value, and reading the stored bytes back
through `_deserialize_value` with JSON decoding enabled yields a value
equal to the original — whatever the binary serializer and deserializer
do. -/
theorem serialize_then_deserialize_roundtrip (pickleDumps : PyValue → List Nat)
    (pickleLoadsFn : List Nat → Option PyValue) (v : PyValue)
    (hstruct : v.isStructured = true) (hok : jsonOk v = true) :
    ∃ s, serialize_value pickleDumps v = some (.str s) ∧
      deserialize_value jsonLoads pickleLoadsFn (some (utf8Encode s)) true = .ok v := by
  obtain ⟨s, hs⟩ := jsonDumps_total v hok
  have hser : serialize_value pickleDumps v = some (.str s) := by
    cases v with
    | list xs => rw [serialize_value, hs]; rfl
    | dict kvs => rw [serialize_value, hs]; rfl
    | pynone => simp [PyValue.isStructured] at hstruct
    | bool b => simp [PyValue.isStructured] at hstruct
    | int n => simp [PyValue.isStructured] at hstruct
    | str k => simp [PyValue.isStructured] at hstruct
    | bytes bs => simp [PyValue.isStructured] at hstruct
  refine ⟨s, hser, ?_⟩
  simp [deserialize_value, utf8Decode_encode s, jsonLoads_dumps v s hs]

/-- C9 witness: the particular value from the spec,
`{"a": 1, "b": [2, 3]}`, serializes and decodes back to itself. -/
theorem serialize_then_deserialize_roundtrip_witness :
    (PyValue.dict [(['a'], .int 1), (['b'], .list [.int 2, .int 3])]).isStructured = true ∧
    jsonOk (PyValue.dict [(['a'], .int 1), (['b'], .list [.int 2, .int 3])]) = true ∧
    ∃ s, serialize_value (fun _ => [])
        (.dict [(['a'], .int 1), (['b'], .list [.int 2, .int 3])]) = some (.str s) ∧
      deserialize_value jsonLoads (fun _ => none) (some (utf8Encode s)) true =
        .ok (.dict [(['a'], .int 1), (['b'], .list [.int 2, .int 3])]) :=
  ⟨rfl, rfl,
   serialize_then_deserialize_roundtrip (fun _ => []) (fun _ => none)
     (.dict [(['a'], .int 1), (['b'], .list [.int 2, .int 3])]) rfl rfl⟩
